import Mathlib

/-!
# Verification of the harmony, lion-swarm and sparse-evolution snippets

Shallow embedding of the three source files:

* `Harmony_Optimizations_MultiLevel.c`            (namespace `Harmony`)
* `QuantumSymbiotic_LionSwarmOptimization_AdvancedApplications.cpp`
                                                  (namespaces `LionSwarm`, `PSLSO`, `LHD`)
* `sparse_evolutionary_dl_million_neurons.c`      (namespace `SEDL`)

Conventions of the embedding.

* A C `double` is a rational number (`ℚ`): arithmetic is exact and there is no NaN.
* A C array is a `List`; `a[i]` is `a.getD i default`, `a[i] = v` is `a.set i v`.
  Accesses past the end of the array (undefined behaviour in C) read the default
  element and write nothing.
* `for (int i = 0; i < n; i++) body` is `loopFrom body n 0`.
* `rand()` is a stream `rnd : Nat → Nat` together with the number of draws made so far.
* `printf` appends a record (format string and arguments) to an output list.
-/

/-- The C loop `for (i = start; i < start + k; i++) s = body i s`, by recursion on the
number `k` of iterations left. -/
def loopFrom {σ : Type} (body : Nat → σ → σ) : Nat → Nat → σ → σ
  | 0, _, s => s
  | k + 1, i, s => loopFrom body k (i + 1) (body i s)

/-- An argument of a `printf` call. -/
inductive PrintfArg where
  | int (n : Int)
  | dbl (x : ℚ)
deriving DecidableEq

/-- One `printf` call: the format string and its arguments. -/
structure Printf where
  fmt : String
  args : List PrintfArg
deriving DecidableEq

namespace Harmony

/-- The constant `#define MAX_ELEMENTS 100`. -/
def MAX_ELEMENTS : Nat := 100

/-- The largest value of a C `int` (32 bits). -/
def INT_MAX : Int := 2147483647

/-- Two's-complement wrap-around of a 32-bit signed `int`. -/
def wrapInt (x : Int) : Int := (x + 2147483648) % 4294967296 - 2147483648

/-- The struct `HarmonyState`. -/
structure HarmonyState where
  harmony_value : ℚ
  element_count : Int
deriving DecidableEq

instance : Inhabited HarmonyState := ⟨⟨0, 0⟩⟩

/-- What a function of the file acts on: the `states` array and the text printed so far. -/
abbrev Prog := List HarmonyState × List Printf

/-- Function 1, `calculate_overall_harmony`: returns the `double` result together with
the array, which the function only reads. -/
def calculate_overall_harmony (states : List HarmonyState) (count : Int) :
    ℚ × List HarmonyState :=
  let total_harmony : ℚ :=
    loopFrom (fun i total => total + (states.getD i default).harmony_value) count.toNat 0 0
  (total_harmony / (count : ℚ), states)

/-- Function 2, `optimize_resource_allocation`. -/
def optimize_resource_allocation (states : List HarmonyState) (count : Int) :
    List HarmonyState :=
  loopFrom (fun i s =>
    let st := s.getD i default
    if st.harmony_value < 1 / 2 then
      s.set i { st with element_count := wrapInt (st.element_count + 1) }
    else
      s.set i { st with element_count :=
        if st.element_count > 0 then st.element_count - 1 else 0 })
    count.toNat 0 states

/-- Function 3, `resolve_conflicts`. -/
def resolve_conflicts (count : Int) (p : Prog) : Prog :=
  loopFrom (fun i q =>
    let st := q.1.getD i default
    if st.harmony_value < 2 / 5 then
      (q.1.set i { st with harmony_value := st.harmony_value + 1 / 5 },
       q.2 ++ [⟨"Conflict detected in element %d, initiating resolution...", [.int i]⟩])
    else q)
    count.toNat 0 p

/-- Function 4, `adaptive_feedback`. -/
def adaptive_feedback (count : Int) (p : Prog) : Prog :=
  loopFrom (fun i q =>
    let st := q.1.getD i default
    if st.harmony_value < 3 / 5 then
      (q.1.set i { st with harmony_value := st.harmony_value + 1 / 10 }, q.2)
    else q)
    count.toNat 0 p

/-- Function 5, `hierarchical_decision_making`. -/
def hierarchical_decision_making (count : Int) (p : Prog) : Prog :=
  loopFrom (fun i q =>
    let st := q.1.getD i default
    if st.harmony_value < 1 / 2 then
      (q.1.set i { st with harmony_value := st.harmony_value + 1 / 5 },
       q.2 ++ [⟨"Low harmony detected in element %d: Making adjustments at lower level.",
                [.int i]⟩])
    else
      (q.1, q.2 ++ [⟨"Element %d is stable. Higher hierarchy can consider optimization.",
                     [.int i]⟩]))
    count.toNat 0 p

/-- Function 6, `analyze_trade_offs`. -/
def analyze_trade_offs (count : Int) (p : Prog) : Prog :=
  loopFrom (fun i q =>
    let st := q.1.getD i default
    if st.harmony_value < 1 / 2 then
      (q.1.set i { st with harmony_value := st.harmony_value + 1 / 5 },
       q.2 ++ [⟨"Trade-off for element %d: Increasing harmony value.", [.int i]⟩])
    else
      (q.1, q.2 ++ [⟨"Element %d is in harmony, maintaining status.", [.int i]⟩]))
    count.toNat 0 p

/-- Function 7, `predict_harmony_states`: prints only. -/
def predict_harmony_states (count : Int) (future_steps : Int) (p : Prog) : Prog :=
  loopFrom (fun i q =>
    (q.1, q.2 ++ [⟨"Predicted harmony for element %d in %d steps: %.2f",
      [.int i, .int future_steps,
       .dbl ((q.1.getD i default).harmony_value + 1 / 10 * (future_steps : ℚ))]⟩]))
    count.toNat 0 p

/-- Function 8, `review_and_adjust`. -/
def review_and_adjust (count : Int) (p : Prog) : Prog :=
  loopFrom (fun i q =>
    let st := q.1.getD i default
    if st.harmony_value < 1 / 2 then
      (q.1.set i { st with harmony_value := st.harmony_value + 1 / 5 },
       q.2 ++ [⟨"Reviewing element %d for improvement...", [.int i]⟩])
    else
      (q.1, q.2 ++ [⟨"Element %d is performing well.", [.int i]⟩]))
    count.toNat 0 p

/-- The part of `main` after the random initialisation of `states`, up to and including
the call of `hierarchical_decision_making`. -/
def main_to_hierarchical (states : List HarmonyState) : Prog :=
  hierarchical_decision_making MAX_ELEMENTS
    (adaptive_feedback MAX_ELEMENTS
      (resolve_conflicts MAX_ELEMENTS
        (optimize_resource_allocation states MAX_ELEMENTS,
         [⟨"Overall Harmony Value: %.2f",
           [.dbl (calculate_overall_harmony states MAX_ELEMENTS).1]⟩])))

/-- The rest of `main`: `analyze_trade_offs`. -/
def main_to_trade_offs (states : List HarmonyState) : Prog :=
  analyze_trade_offs MAX_ELEMENTS (main_to_hierarchical states)

/-- The whole of `main` after the random initialisation: the final array and output. -/
def main (states : List HarmonyState) : Prog :=
  review_and_adjust MAX_ELEMENTS
    (predict_harmony_states MAX_ELEMENTS 5 (main_to_trade_offs states))

/-- The threshold-triggered increment in the words of the specification: add 0.2 to a
harmony value below 0.5 and change nothing else. -/
def bump (st : HarmonyState) : HarmonyState :=
  if st.harmony_value < 1 / 2 then { st with harmony_value := st.harmony_value + 1 / 5 }
  else st

end Harmony

namespace LionSwarm

/-- The constant `#define LIONS 100`. -/
def LIONS : Nat := 100

/-- The constant `#define ITERATIONS 1000`. -/
def ITERATIONS : Nat := 1000

/-- The constant `#define JOBS 50`. -/
def JOBS : Nat := 50

/-- The struct `Lion` of the C program. -/
structure Lion where
  job_assignment : List Int
  fitness : ℚ
deriving DecidableEq

/-- A zero-initialised `Lion`, as the globals `pride[i]` and `best_lion` are at start-up. -/
instance : Inhabited Lion := ⟨⟨List.replicate JOBS 0, 0⟩⟩

/-- The globals `pride` and `best_lion`, the number of `rand()` calls made so far and the
text printed so far. -/
structure State where
  pride : List Lion
  best_lion : Lion
  draws : Nat
  out : List Printf

/-- The program state before `main` runs: zero-initialised globals, nothing drawn or
printed. -/
def start : State := ⟨List.replicate LIONS default, default, 0, []⟩

/-- The function `fitness`: `(rand() % 1000) / 10.0`, from the draw number `draws` of the
stream `rnd`; returns the value and the new number of draws. The argument `lion` is not
read by the source. -/
def fitness (rnd : Nat → Nat) (draws : Nat) : ℚ × Nat :=
  (((rnd draws % 1000 : Nat) : ℚ) / 10, draws + 1)

/-- The inner loop of `initialize_population`, for lion `i`: a random job for each of the
`JOBS` entries of `pride[i].job_assignment`. -/
def assign_jobs (rnd : Nat → Nat) (i : Nat) (s : State) : State :=
  loopFrom (fun j (s : State) =>
    let lion := s.pride.getD i default
    { s with
      pride := s.pride.set i
        { lion with job_assignment := lion.job_assignment.set j ((rnd s.draws % JOBS : Nat) : Int) }
      draws := s.draws + 1 }) JOBS 0 s

/-- The function `initialize_population`. -/
def initialize_population (rnd : Nat → Nat) (s : State) : State :=
  loopFrom (fun i s =>
    let s1 := assign_jobs rnd i s
    let r := fitness rnd s1.draws
    { s1 with
      pride := s1.pride.set i { s1.pride.getD i default with fitness := r.1 }
      draws := r.2 }) LIONS 0 s

/-- The function `update_best`. -/
def update_best (s : State) : State :=
  loopFrom (fun i (s : State) =>
    if (s.pride.getD i default).fitness < s.best_lion.fitness then
      { s with best_lion := s.pride.getD i default }
    else s) LIONS 0 s

/-- The function `lion_hunting`. The iterations of the OpenMP loop are taken in index
order: each one writes only `pride[i].fitness` and consumes one draw, and the claims
quantify over every stream `rnd`, so every assignment of drawn values to lions is
covered. -/
def lion_hunting (rnd : Nat → Nat) (s : State) : State :=
  loopFrom (fun i (s : State) =>
    let r := fitness rnd s.draws
    { s with
      pride := s.pride.set i { s.pride.getD i default with fitness := r.1 }
      draws := r.2 }) LIONS 0 s

/-- One pass of the body of the `for` loop of `main`, at iteration `i`. -/
def main_body (rnd : Nat → Nat) (i : Nat) (s : State) : State :=
  let s1 := lion_hunting rnd s
  let s2 := update_best s1
  { s2 with out := s2.out ++
      [⟨"Best Lion at iteration %d has fitness %.2f", [.int i, .dbl s2.best_lion.fitness]⟩] }

/-- The state of `main` when its `for` loop is entered: after `initialize_population()`
and `best_lion = pride[0]`. -/
def main_init (rnd : Nat → Nat) : State :=
  let s := initialize_population rnd start
  { s with best_lion := s.pride.getD 0 default }

/-- The state of `main` after the first `n` iterations of its `for` loop. -/
def main_loop (rnd : Nat → Nat) (n : Nat) : State :=
  loopFrom (main_body rnd) n 0 (main_init rnd)

/-- The function `main`: the state when it returns. -/
def main (rnd : Nat → Nat) : State := main_loop rnd ITERATIONS

/-- The fitness a line of output reports: the `%.2f` argument of the `printf` call. -/
def reported (p : Printf) : ℚ :=
  match p.args with
  | [_, .dbl x] => x
  | _ => 0

/-- The fitness values computed in the first `n` iterations of the loop of `main`, that
is by the first `n` calls of `lion_hunting`. -/
def huntedValues (rnd : Nat → Nat) : Nat → List ℚ
  | 0 => []
  | n + 1 => huntedValues rnd n ++ (lion_hunting rnd (main_loop rnd n)).pride.map Lion.fitness

/-- The fitness values computed by `initialize_population`. -/
def initialValues (rnd : Nat → Nat) : List ℚ :=
  (initialize_population rnd start).pride.map Lion.fitness

end LionSwarm

namespace PSLSO

/-- The struct `Lion` of the C++ program (example 4). -/
structure Lion where
  position : List ℚ
  fitness : ℚ
deriving DecidableEq

/-- The function `update_best` of the C++ program: a range-`for` over the vector
`pride`, returning the new value of the global `best_lion`. -/
def update_best (pride : List Lion) (best_lion : Lion) : Lion :=
  pride.foldl (fun best lion => if lion.fitness < best.fitness then lion else best) best_lion

end PSLSO

namespace LHD

/-- What the parameter `best_lion` of `update_positions` refers to: NumPy hands over
either a view of a row of `lions` (as the optimisation loop does, where
`best_lion = lion_positions[argmin]`) or an array with storage of its own. -/
inductive BestRef where
  | row (b : Nat)
  | own (v : List ℚ)

/-- The current contents of `best_lion`, given the current contents of `lions`. -/
def BestRef.read (lions : List (List ℚ)) : BestRef → List ℚ
  | .row b => lions.getD b []
  | .own v => v

/-- The in-place statement `lion += 0.1 * (best_lion - lion)`, coordinate by
coordinate. -/
def moveRow (lion best_lion : List ℚ) : List ℚ :=
  List.zipWith (fun v t => v + 1 / 10 * (t - v)) lion best_lion

/-- The function `update_positions`: rows are updated in place, in order, and each
update reads `best_lion` as it is at that moment. -/
def update_positions (lions : List (List ℚ)) (best_lion : BestRef) : List (List ℚ) :=
  loopFrom (fun i ls => ls.set i (moveRow (ls.getD i []) (best_lion.read ls)))
    lions.length 0 lions

end LHD

namespace SEDL

/-- The constant `#define POPULATION_SIZE 10`. -/
def POPULATION_SIZE : Nat := 10

/-- The constant `#define MUTATION_RATE 0.1`. -/
def MUTATION_RATE : ℚ := 1 / 10

/-- The struct `SparseNetwork`: the pointers `weights` and `connections` are the
numbers of the buffers they point to. -/
structure SparseNetwork where
  weights : Nat
  connections : Nat
  fitness : ℚ
deriving DecidableEq

instance : Inhabited SparseNetwork := ⟨⟨0, 0, 0⟩⟩

/-- The memory of `evolutionaryTraining`: the weight buffers, the array `population`,
the local `bestNetwork` and the number of `rand()` calls made so far. -/
structure Mem where
  heap : List (List ℚ)
  population : List SparseNetwork
  bestNetwork : SparseNetwork
  draws : Nat

/-- The address of a `SparseNetwork` object: an element of the array `population` or
the local variable `bestNetwork`. -/
inductive Addr where
  | population (i : Nat)
  | bestNetwork
deriving DecidableEq

/-- The test `(double)rand() / RAND_MAX < MUTATION_RATE` on draw number `p`. -/
def selected (RAND_MAX : Nat) (rnd : Nat → Nat) (p : Nat) : Bool :=
  decide (((rnd p : ℚ)) / (RAND_MAX : ℚ) < MUTATION_RATE)

/-- The value `((double)rand() / RAND_MAX) * 0.2 - 0.1` from draw number `p`. -/
def amount (RAND_MAX : Nat) (rnd : Nat → Nat) (p : Nat) : ℚ :=
  ((rnd p : ℚ)) / (RAND_MAX : ℚ) * (1 / 5) - 1 / 10

/-- The loop of `mutateNetwork` on the array `net->weights`, with the number of draws. -/
def mutateWeights (RAND_MAX : Nat) (rnd : Nat → Nat) (totalConnections : Nat)
    (weights : List ℚ) (draws : Nat) : List ℚ × Nat :=
  loopFrom (fun i (s : List ℚ × Nat) =>
    if selected RAND_MAX rnd s.2 then
      (s.1.set i (s.1.getD i 0 + amount RAND_MAX rnd (s.2 + 1)), s.2 + 2)
    else (s.1, s.2 + 1)) totalConnections 0 (weights, draws)

/-- The function `mutateNetwork`, on the buffer `net->weights` points to. -/
def mutateNetwork (RAND_MAX : Nat) (rnd : Nat → Nat) (net : SparseNetwork)
    (totalConnections : Nat) (heap : List (List ℚ)) (draws : Nat) : List (List ℚ) × Nat :=
  let r := mutateWeights RAND_MAX rnd totalConnections (heap.getD net.weights []) draws
  (heap.set net.weights r.1, r.2)

/-- The call `memcpy(dst, src, sizeof(double) * n)` on weight buffers. -/
def memcpy (heap : List (List ℚ)) (dst src n : Nat) : List (List ℚ) :=
  heap.set dst ((heap.getD src []).take n ++ (heap.getD dst []).drop n)

/-- The step "Select the best network" of a generation of `evolutionaryTraining`. -/
def selectBest (m : Mem) : Mem :=
  loopFrom (fun i (m : Mem) =>
    if (m.population.getD i default).fitness > m.bestNetwork.fitness then
      { m with bestNetwork := m.population.getD i default }
    else m) (POPULATION_SIZE - 1) 1 { m with bestNetwork := m.population.getD 0 default }

/-- The step "Generate new population through mutation" of a generation. The guard
compares the address of `population[i]` with the address of the local `bestNetwork`. -/
def generateNewPopulation (RAND_MAX : Nat) (rnd : Nat → Nat) (totalConnections : Nat)
    (m : Mem) : Mem :=
  loopFrom (fun i (m : Mem) =>
    if Addr.population i ≠ Addr.bestNetwork then
      let h := memcpy m.heap (m.population.getD i default).weights m.bestNetwork.weights
        totalConnections
      let r := mutateNetwork RAND_MAX rnd (m.population.getD i default) totalConnections h
        m.draws
      { m with heap := r.1, draws := r.2 }
    else m) POPULATION_SIZE 0 m

/-- One generation of `evolutionaryTraining` after the fitness of every network has been
evaluated: selection, then the new population. -/
def generation (RAND_MAX : Nat) (rnd : Nat → Nat) (totalConnections : Nat) (m : Mem) : Mem :=
  generateNewPopulation RAND_MAX rnd totalConnections (selectBest m)

/-- The number of the draw that decides whether weight `i` is mutated, in a call of
`mutateNetwork` that starts at draw number `start`. -/
def drawIndex (RAND_MAX : Nat) (rnd : Nat → Nat) (start : Nat) : Nat → Nat
  | 0 => start
  | i + 1 =>
    let p := drawIndex RAND_MAX rnd start i
    if selected RAND_MAX rnd p then p + 2 else p + 1

end SEDL

namespace Harmony

/-- The effect of one iteration of `optimize_resource_allocation` on its element. -/
def allocStep (st : HarmonyState) : HarmonyState :=
  if st.harmony_value < 1 / 2 then { st with element_count := wrapInt (st.element_count + 1) }
  else { st with element_count := if st.element_count > 0 then st.element_count - 1 else 0 }

/-- The effect of one iteration of `resolve_conflicts` on its element. -/
def conflictStep (st : HarmonyState) : HarmonyState :=
  if st.harmony_value < 2 / 5 then { st with harmony_value := st.harmony_value + 1 / 5 }
  else st

/-- The effect of one iteration of `adaptive_feedback` on its element. -/
def feedbackStep (st : HarmonyState) : HarmonyState :=
  if st.harmony_value < 3 / 5 then { st with harmony_value := st.harmony_value + 1 / 10 }
  else st

/-- A sample array for `main`: fifty states with harmony 0.25 and fifty with 0.9. -/
def sampleStates : List HarmonyState :=
  List.replicate 50 (HarmonyState.mk (1 / 4) 3) ++ List.replicate 50 (HarmonyState.mk (9 / 10) 0)

end Harmony

namespace LionSwarm

/-- A sample state for `update_best`: ninety-nine lions of fitness 5, a last one of
fitness 2, and a current best of fitness 3. -/
def sampleState : State :=
  ⟨List.replicate 99 ⟨List.replicate JOBS 0, 5⟩ ++ [⟨List.replicate JOBS 1, 2⟩],
   ⟨List.replicate JOBS 0, 3⟩, 0, []⟩

/-- A stream of draws: number 101 is 0, every other draw is 50. Draw 101 is the one
`initialize_population` uses for the fitness of `pride[1]`. -/
def badStream (k : Nat) : Nat := if k = 101 then 0 else 50

/-- The part of a state the fitness evaluations act on: the fitness of every lion and the
number of draws. -/
def view (s : State) : List ℚ × Nat := (s.pride.map Lion.fitness, s.draws)

/-- What the fitness evaluations leave alone: `best_lion` and the output. -/
def rest (s : State) : Lion × List Printf := (s.best_lion, s.out)

end LionSwarm

namespace PSLSO

/-- A sample pride for the C++ `update_best`. -/
def samplePride : List Lion := [⟨[3, 4], 25⟩, ⟨[1, 1], 2⟩, ⟨[1, -1], 2⟩]

/-- A sample current best for the C++ `update_best`. -/
def sampleBest : Lion := ⟨[2, 2], 8⟩

end PSLSO

namespace LHD

/-- A sample population for `update_positions`: two lions in two dimensions. -/
def sampleLions : List (List ℚ) := [[0, 10], [1, 1]]

end LHD

namespace SEDL

/-- The number of weights of a network: `SPARSITY_FACTOR * INPUT_NODES * HIDDEN_NODES`,
that is 0.001 * 784 * 1000000. -/
def TOTAL_CONNECTIONS : Nat := 784000

/-- A sample stream of draws for `mutateNetwork` with `RAND_MAX = 32767`: draw 0 is 0,
every later draw is 32767. -/
def sampleRand (k : Nat) : Nat := if k = 0 then 0 else 32767

/-- The stream of draws in which `rand()` returns 0 at every call. -/
def zeroRand (_ : Nat) : Nat := 0

/-- The memory of `evolutionaryTraining` at the selection step of a generation when every
`rand()` call so far has returned 0: ten networks, `population[i].weights` pointing to
buffer `i`, every weight equal to -1 and every fitness equal to 1. -/
def zeroMem : Mem :=
  ⟨List.replicate POPULATION_SIZE (List.replicate TOTAL_CONNECTIONS (-1)),
   (List.range POPULATION_SIZE).map (fun i => ⟨i, i, 1⟩), default, 0⟩

end SEDL

/-! ## Loops -/

/-- Unfolding a loop at its last iteration. -/
theorem loopFrom_succ_last {σ : Type} (body : Nat → σ → σ) (k i : Nat) (s : σ) :
    loopFrom body (k + 1) i s = body (i + k) (loopFrom body k i s) := by
  induction k generalizing i s with
  | zero => simp [loopFrom]
  | succ k ih =>
    rw [loopFrom, ih (i + 1) (body i s)]
    have h : i + 1 + k = i + (k + 1) := by omega
    rw [h]
    rfl

/-- Two loops whose bodies agree through a projection `π` agree through `π`. -/
theorem loopFrom_proj {σ τ : Type} (π : σ → τ) (body : Nat → σ → σ) (body2 : Nat → τ → τ)
    (h : ∀ i s, π (body i s) = body2 i (π s)) (k i : Nat) (s : σ) :
    π (loopFrom body k i s) = loopFrom body2 k i (π s) := by
  induction k generalizing i s with
  | zero => rfl
  | succ k ih => rw [loopFrom, loopFrom, ih, h]

/-- Writing back what was read leaves an array as it is. -/
theorem set_getD_self {α : Type} (s : List α) (i : Nat) (d : α) : s.set i (s.getD i d) = s := by
  apply List.ext_getElem?
  intro j
  rw [List.getElem?_set]
  by_cases hij : i = j
  · subst hij
    by_cases hi : i < s.length
    · simp [hi, List.getD_eq_getElem?_getD]
    · simp [hi, List.getElem?_eq_none (Nat.le_of_not_lt hi)]
  · simp [hij]

/-- A loop that rewrites element `j` by `f` at iteration `j` keeps the length. -/
theorem loopFrom_set_length {α : Type} (f : α → α) (d : α) (k i : Nat) (s : List α) :
    (loopFrom (fun j s => s.set j (f (s.getD j d))) k i s).length = s.length := by
  induction k generalizing i s with
  | zero => rfl
  | succ k ih => rw [loopFrom, ih]; simp

/-- A loop that rewrites element `j` by `f` at iteration `j` applies `f` to the elements
numbered `i .. i + k - 1` and to no other. -/
theorem loopFrom_set_getElem? {α : Type} (f : α → α) (d : α) (k i : Nat) (s : List α)
    (j : Nat) :
    (loopFrom (fun j s => s.set j (f (s.getD j d))) k i s)[j]? =
      if i ≤ j ∧ j < i + k then s[j]?.map f else s[j]? := by
  induction k generalizing i s with
  | zero =>
    have h : ¬ (i ≤ j ∧ j < i + 0) := by omega
    rw [if_neg h]
    rfl
  | succ k ih =>
    rw [loopFrom, ih, List.getElem?_set]
    by_cases hij : i = j
    · subst hij
      have h1 : ¬ (i + 1 ≤ i ∧ i < i + 1 + k) := by omega
      have h2 : i ≤ i ∧ i < i + (k + 1) := by omega
      rw [if_neg h1, if_pos h2, if_pos rfl]
      by_cases hi : i < s.length
      · simp [hi, List.getD_eq_getElem?_getD]
      · simp [hi, List.getElem?_eq_none (Nat.le_of_not_lt hi)]
    · rw [if_neg hij]
      by_cases h1 : i + 1 ≤ j ∧ j < i + 1 + k
      · have h2 : i ≤ j ∧ j < i + (k + 1) := by omega
        rw [if_pos h1, if_pos h2]
      · have h2 : ¬ (i ≤ j ∧ j < i + (k + 1)) := by omega
        rw [if_neg h1, if_neg h2]

/-- The same, for the whole array: the first `k` elements are rewritten by `f`. -/
theorem loopFrom_set_eq {α : Type} (f : α → α) (d : α) (k : Nat) (s : List α) :
    loopFrom (fun j s => s.set j (f (s.getD j d))) k 0 s = (s.take k).map f ++ s.drop k := by
  apply List.ext_getElem?
  intro j
  rw [loopFrom_set_getElem?]
  by_cases hj : j < k
  · have h : 0 ≤ j ∧ j < 0 + k := by omega
    rw [if_pos h]
    by_cases hl : j < s.length
    · rw [List.getElem?_append_left (by simp; omega)]
      simp [List.getElem?_take, hj]
    · have hl2 : s.length ≤ j := Nat.le_of_not_lt hl
      rw [List.getElem?_eq_none hl2, List.getElem?_eq_none (by simp; omega)]
      rfl
  · have h : ¬ (0 ≤ j ∧ j < 0 + k) := by omega
    rw [if_neg h]
    by_cases hl : k ≤ s.length
    · rw [List.getElem?_append_right (by simp; omega)]
      simp [List.length_take, Nat.min_eq_left hl]
      congr 1
      omega
    · have hk : s.length < k := Nat.lt_of_not_le hl
      have : s.length ≤ j := by omega
      rw [List.getElem?_eq_none this, List.getElem?_eq_none (by simp; omega)]

/-! ## Harmony optimisations -/

namespace Harmony

/-- The summation loop of `calculate_overall_harmony` adds up the elements it visits. -/
theorem sum_loop (l : List HarmonyState) (k i : Nat) (t : ℚ) (h : i + k ≤ l.length) :
    loopFrom (fun j total => total + (l.getD j default).harmony_value) k i t =
      t + (((l.drop i).take k).map HarmonyState.harmony_value).sum := by
  induction k generalizing i t with
  | zero => simp [loopFrom]
  | succ k ih =>
    have hi : i < l.length := by omega
    have hg : l.getD i default = l[i] := by
      simp [List.getD_eq_getElem?_getD, List.getElem?_eq_getElem hi]
    rw [loopFrom, ih (i + 1) _ (by omega), List.drop_eq_getElem_cons hi, List.take_succ_cons,
      List.map_cons, List.sum_cons, hg, add_assoc]

theorem optimize_resource_allocation_eq (states : List HarmonyState) (count : Int) :
    optimize_resource_allocation states count =
      loopFrom (fun j s => s.set j (allocStep (s.getD j default))) count.toNat 0 states := by
  unfold optimize_resource_allocation
  congr 1
  funext i s
  simp only [allocStep]
  split <;> rfl

theorem resolve_conflicts_fst (count : Int) (p : Prog) :
    (resolve_conflicts count p).1 =
      loopFrom (fun j s => s.set j (conflictStep (s.getD j default))) count.toNat 0 p.1 := by
  unfold resolve_conflicts
  apply loopFrom_proj Prod.fst
  intro i q
  simp only [conflictStep]
  split
  · rfl
  · exact (set_getD_self _ _ _).symm

theorem adaptive_feedback_fst (count : Int) (p : Prog) :
    (adaptive_feedback count p).1 =
      loopFrom (fun j s => s.set j (feedbackStep (s.getD j default))) count.toNat 0 p.1 := by
  unfold adaptive_feedback
  apply loopFrom_proj Prod.fst
  intro i q
  simp only [feedbackStep]
  split
  · rfl
  · exact (set_getD_self _ _ _).symm

theorem hierarchical_decision_making_fst (count : Int) (p : Prog) :
    (hierarchical_decision_making count p).1 =
      loopFrom (fun j s => s.set j (bump (s.getD j default))) count.toNat 0 p.1 := by
  unfold hierarchical_decision_making
  apply loopFrom_proj Prod.fst
  intro i q
  simp only [bump]
  split
  · rfl
  · exact (set_getD_self _ _ _).symm

theorem analyze_trade_offs_fst (count : Int) (p : Prog) :
    (analyze_trade_offs count p).1 =
      loopFrom (fun j s => s.set j (bump (s.getD j default))) count.toNat 0 p.1 := by
  unfold analyze_trade_offs
  apply loopFrom_proj Prod.fst
  intro i q
  simp only [bump]
  split
  · rfl
  · exact (set_getD_self _ _ _).symm

theorem review_and_adjust_fst (count : Int) (p : Prog) :
    (review_and_adjust count p).1 =
      loopFrom (fun j s => s.set j (bump (s.getD j default))) count.toNat 0 p.1 := by
  unfold review_and_adjust
  apply loopFrom_proj Prod.fst
  intro i q
  simp only [bump]
  split
  · rfl
  · exact (set_getD_self _ _ _).symm

theorem predict_harmony_states_fst (count future_steps : Int) (p : Prog) :
    (predict_harmony_states count future_steps p).1 = p.1 := by
  unfold predict_harmony_states
  generalize count.toNat = k
  generalize 0 = i
  induction k generalizing i p with
  | zero => rfl
  | succ k ih => rw [loopFrom, ih]

/-- A loop over the whole array is a `map`. -/
theorem loopFrom_set_map (f : HarmonyState → HarmonyState) (s : List HarmonyState) (k : Nat)
    (h : k = s.length) :
    loopFrom (fun j s => s.set j (f (s.getD j default))) k 0 s = s.map f := by
  rw [loopFrom_set_eq, h]
  simp

/-- Claim C7. For `count >= 1` states of the array, function 1 returns the average of
the first `count` harmony values (their sum divided by `count`) and leaves the array as
it is. -/
theorem calculate_overall_harmony_average (states : List HarmonyState) (count : Int)
    (h1 : 1 ≤ count) (h2 : count ≤ (states.length : Int)) :
    calculate_overall_harmony states count =
      (((states.take count.toNat).map HarmonyState.harmony_value).sum / (count : ℚ), states) := by
  unfold calculate_overall_harmony
  have h : 0 + count.toNat ≤ states.length := by omega
  simp only [sum_loop states count.toNat 0 0 h]
  simp

/-- Witness of C7 on a two-element array. -/
theorem calculate_overall_harmony_average_witness :
    (1 : Int) ≤ 2 ∧ (2 : Int) ≤ (([⟨1 / 2, 3⟩, ⟨1 / 4, 0⟩] : List HarmonyState).length : Int) ∧
    calculate_overall_harmony [⟨1 / 2, 3⟩, ⟨1 / 4, 0⟩] 2 =
      (((([⟨1 / 2, 3⟩, ⟨1 / 4, 0⟩] : List HarmonyState).take (2 : Int).toNat).map
          HarmonyState.harmony_value).sum / ((2 : Int) : ℚ), [⟨1 / 2, 3⟩, ⟨1 / 4, 0⟩]) :=
  ⟨by decide, by decide,
    calculate_overall_harmony_average [⟨1 / 2, 3⟩, ⟨1 / 4, 0⟩] 2 (by decide) (by decide)⟩

/-- Under the range assumption of the claim the increment does not wrap. -/
theorem wrapInt_succ (x : Int) (h0 : 0 ≤ x) (h1 : x < INT_MAX) : wrapInt (x + 1) = x + 1 := by
  unfold wrapInt
  unfold INT_MAX at h1
  omega

/-- Claim C8. On element counts in `[0, INT_MAX)`, function 2 adds one to
`element_count` where `harmony_value < 0.5`, takes one away (never below zero) elsewhere,
keeps every `element_count` non-negative and changes no `harmony_value`; elements from
index `count` on are not touched. -/
theorem optimize_resource_allocation_spec (states : List HarmonyState) (count : Int)
    (hrange : ∀ st ∈ states, 0 ≤ st.element_count ∧ st.element_count < INT_MAX) :
    (optimize_resource_allocation states count).length = states.length ∧
    ∀ i, i < states.length →
      ((optimize_resource_allocation states count).getD i default).harmony_value =
        (states.getD i default).harmony_value ∧
      0 ≤ ((optimize_resource_allocation states count).getD i default).element_count ∧
      ((i : Int) < count → (states.getD i default).harmony_value < 1 / 2 →
        ((optimize_resource_allocation states count).getD i default).element_count =
          (states.getD i default).element_count + 1) ∧
      ((i : Int) < count → ¬ (states.getD i default).harmony_value < 1 / 2 →
        ((optimize_resource_allocation states count).getD i default).element_count =
          max ((states.getD i default).element_count - 1) 0) ∧
      (count ≤ (i : Int) →
        (optimize_resource_allocation states count).getD i default = states.getD i default) := by
  rw [optimize_resource_allocation_eq]
  refine ⟨loopFrom_set_length _ _ _ _ _, ?_⟩
  intro i hi
  have hmem : states[i] ∈ states := List.getElem_mem hi
  obtain ⟨h0, h1⟩ := hrange _ hmem
  have hg : states.getD i default = states[i] := by
    simp [List.getD_eq_getElem?_getD, List.getElem?_eq_getElem hi]
  rw [List.getD_eq_getElem?_getD, loopFrom_set_getElem?, hg]
  by_cases hic : (i : Int) < count
  · have h : 0 ≤ i ∧ i < 0 + count.toNat := by omega
    rw [if_pos h, List.getElem?_eq_getElem hi]
    simp only [Option.map_some', Option.getD_some]
    by_cases hlow : states[i].harmony_value < 1 / 2
    · simp only [allocStep, if_pos hlow, wrapInt_succ _ h0 h1]
      refine ⟨trivial, by omega, fun _ _ => trivial, fun _ hn => absurd hlow hn, fun hc => ?_⟩
      omega
    · simp only [allocStep, if_neg hlow]
      refine ⟨trivial, ?_, fun _ hl => absurd hl hlow, fun _ _ => ?_, fun hc => ?_⟩
      · split <;> omega
      · split <;> omega
      · omega
  · have h : ¬ (0 ≤ i ∧ i < 0 + count.toNat) := by omega
    rw [if_neg h, List.getElem?_eq_getElem hi]
    simp only [Option.getD_some]
    refine ⟨trivial, h0, fun hc => absurd hc hic, fun hc => absurd hc hic, fun _ => trivial⟩

/-- Witness of C8 on a two-element array. -/
theorem optimize_resource_allocation_spec_witness :
    (∀ st ∈ ([⟨1 / 4, 3⟩, ⟨3 / 4, 0⟩] : List HarmonyState),
      0 ≤ st.element_count ∧ st.element_count < INT_MAX) ∧
    optimize_resource_allocation [⟨1 / 4, 3⟩, ⟨3 / 4, 0⟩] 2 = [⟨1 / 4, 4⟩, ⟨3 / 4, 0⟩] ∧
    ((optimize_resource_allocation [⟨1 / 4, 3⟩, ⟨3 / 4, 0⟩] 2).length =
      ([⟨1 / 4, 3⟩, ⟨3 / 4, 0⟩] : List HarmonyState).length) :=
  ⟨by simp [INT_MAX], by
      norm_num [optimize_resource_allocation, loopFrom, wrapInt],
    (optimize_resource_allocation_spec [⟨1 / 4, 3⟩, ⟨3 / 4, 0⟩] 2 (by simp [INT_MAX])).1⟩

/-- Claim C9. Functions 5, 6 and 8 have the same effect on the array: the first `count` elements
are rewritten by `bump`, the others are kept. -/
theorem threshold_functions_agree (count : Int) (p : Prog) :
    (hierarchical_decision_making count p).1 = (analyze_trade_offs count p).1 ∧
    (analyze_trade_offs count p).1 = (review_and_adjust count p).1 ∧
    (hierarchical_decision_making count p).1 =
      (p.1.take count.toNat).map bump ++ p.1.drop count.toNat := by
  rw [hierarchical_decision_making_fst, analyze_trade_offs_fst, review_and_adjust_fst,
    loopFrom_set_eq]
  exact ⟨rfl, rfl, rfl⟩

theorem optimize_resource_allocation_map (s : List HarmonyState) (count : Int)
    (h : count.toNat = s.length) : optimize_resource_allocation s count = s.map allocStep := by
  rw [optimize_resource_allocation_eq, loopFrom_set_map _ _ _ h]

theorem resolve_conflicts_map (count : Int) (p : Prog) (h : count.toNat = p.1.length) :
    (resolve_conflicts count p).1 = p.1.map conflictStep := by
  rw [resolve_conflicts_fst, loopFrom_set_map _ _ _ h]

theorem adaptive_feedback_map (count : Int) (p : Prog) (h : count.toNat = p.1.length) :
    (adaptive_feedback count p).1 = p.1.map feedbackStep := by
  rw [adaptive_feedback_fst, loopFrom_set_map _ _ _ h]

theorem hierarchical_decision_making_map (count : Int) (p : Prog)
    (h : count.toNat = p.1.length) :
    (hierarchical_decision_making count p).1 = p.1.map bump := by
  rw [hierarchical_decision_making_fst, loopFrom_set_map _ _ _ h]

/-- The array after the first four calls of `main`, element by element. -/
theorem main_to_hierarchical_fst (states : List HarmonyState)
    (hlen : states.length = MAX_ELEMENTS) :
    (main_to_hierarchical states).1 =
      states.map (fun st => bump (feedbackStep (conflictStep (allocStep st)))) := by
  have h0 : ((MAX_ELEMENTS : Nat) : Int).toNat = states.length := by
    rw [Int.toNat_ofNat, hlen]
  have e1 : optimize_resource_allocation states MAX_ELEMENTS = states.map allocStep :=
    optimize_resource_allocation_map _ _ h0
  rw [main_to_hierarchical, e1]
  generalize hout : ([⟨"Overall Harmony Value: %.2f",
    [.dbl (calculate_overall_harmony states MAX_ELEMENTS).1]⟩] : List Printf) = out
  have e2 := resolve_conflicts_map MAX_ELEMENTS (states.map allocStep, out)
    (by rw [List.length_map]; exact h0)
  have e3 := adaptive_feedback_map MAX_ELEMENTS
    (resolve_conflicts MAX_ELEMENTS (states.map allocStep, out))
    (by rw [e2, List.length_map, List.length_map]; exact h0)
  have e4 := hierarchical_decision_making_map MAX_ELEMENTS
    (adaptive_feedback MAX_ELEMENTS (resolve_conflicts MAX_ELEMENTS (states.map allocStep, out)))
    (by rw [e3, e2, List.length_map, List.length_map, List.length_map]; exact h0)
  rw [e4, e3, e2, List.map_map, List.map_map, List.map_map]
  rfl

/-- A harmony value in `[0, 1]` is in `[0.5, 1]` after the steps of functions 2 to 5. -/
theorem settle (st : HarmonyState) (h0 : 0 ≤ st.harmony_value) (h1 : st.harmony_value ≤ 1) :
    1 / 2 ≤ (bump (feedbackStep (conflictStep (allocStep st)))).harmony_value ∧
    (bump (feedbackStep (conflictStep (allocStep st)))).harmony_value ≤ 1 := by
  have ha : (allocStep st).harmony_value = st.harmony_value := by
    unfold allocStep
    split <;> rfl
  generalize allocStep st = a at ha
  rw [← ha] at h0 h1
  unfold bump feedbackStep conflictStep
  split_ifs <;> constructor <;> simp only [] at * <;> linarith

/-- A state with harmony value at least `0.5` is left as it is by `bump`. -/
theorem bump_of_settled (st : HarmonyState) (h : 1 / 2 ≤ st.harmony_value) : bump st = st := by
  unfold bump
  rw [if_neg (not_lt.mpr h)]

/-- Claim C10. In `main`, a harmony value that starts in `[0, 1]` is in `[0.5, 1]` after
`hierarchical_decision_making`; when all of them start there, `analyze_trade_offs` and
`review_and_adjust` change nothing in the array. -/
theorem main_harmony_settles (states : List HarmonyState)
    (hlen : states.length = MAX_ELEMENTS) :
    (∀ i, i < MAX_ELEMENTS →
      0 ≤ (states.getD i default).harmony_value → (states.getD i default).harmony_value ≤ 1 →
      1 / 2 ≤ ((main_to_hierarchical states).1.getD i default).harmony_value ∧
      ((main_to_hierarchical states).1.getD i default).harmony_value ≤ 1) ∧
    ((∀ st ∈ states, 0 ≤ st.harmony_value ∧ st.harmony_value ≤ 1) →
      (main_to_trade_offs states).1 = (main_to_hierarchical states).1 ∧
      (main states).1 = (main_to_hierarchical states).1) := by
  have h3 := main_to_hierarchical_fst states hlen
  have hl3 : ((MAX_ELEMENTS : Nat) : Int).toNat = (main_to_hierarchical states).1.length := by
    rw [h3, List.length_map, Int.toNat_ofNat, hlen]
  constructor
  · intro i hi h0 h1
    have hi2 : i < states.length := by omega
    have hg : states.getD i default = states[i] := by
      simp [List.getD_eq_getElem?_getD, List.getElem?_eq_getElem hi2]
    rw [h3, List.getD_eq_getElem?_getD, List.getElem?_map, List.getElem?_eq_getElem hi2]
    rw [hg] at h0 h1
    exact settle _ h0 h1
  · intro hall
    have hfix : (main_to_hierarchical states).1.map bump = (main_to_hierarchical states).1 := by
      rw [h3, List.map_map]
      apply List.map_congr_left
      intro st hst
      exact bump_of_settled _ (settle st (hall st hst).1 (hall st hst).2).1
    have h4 : (main_to_trade_offs states).1 = (main_to_hierarchical states).1 := by
      unfold main_to_trade_offs
      rw [analyze_trade_offs_fst, loopFrom_set_map _ _ _ hl3, hfix]
    refine ⟨h4, ?_⟩
    unfold main
    rw [review_and_adjust_fst, predict_harmony_states_fst, h4, loopFrom_set_map _ _ _ hl3, hfix]

/-- Witness of C10: an array of 100 states, half of them low and half of them high. -/
theorem main_harmony_settles_witness :
    sampleStates.length = MAX_ELEMENTS ∧
    ((∀ i, i < MAX_ELEMENTS →
      0 ≤ (sampleStates.getD i default).harmony_value →
      (sampleStates.getD i default).harmony_value ≤ 1 →
      1 / 2 ≤ ((main_to_hierarchical sampleStates).1.getD i default).harmony_value ∧
      ((main_to_hierarchical sampleStates).1.getD i default).harmony_value ≤ 1) ∧
    ((∀ st ∈ sampleStates, 0 ≤ st.harmony_value ∧ st.harmony_value ≤ 1) →
      (main_to_trade_offs sampleStates).1 = (main_to_hierarchical sampleStates).1 ∧
      (main sampleStates).1 = (main_to_hierarchical sampleStates).1)) :=
  ⟨by simp [sampleStates, MAX_ELEMENTS],
    main_harmony_settles sampleStates (by simp [sampleStates, MAX_ELEMENTS])⟩

end Harmony

/-! ## Selection of the best candidate -/

/-- A loop that only reads the array `l` is a fold over the elements it visits. -/
theorem loopFrom_getD_foldl {α β : Type} (g : α → β → β) (l : List α) (d : α) (k i : Nat)
    (b : β) (h : i + k ≤ l.length) :
    loopFrom (fun j b => g (l.getD j d) b) k i b =
      ((l.drop i).take k).foldl (fun b x => g x b) b := by
  induction k generalizing i b with
  | zero => simp [loopFrom]
  | succ k ih =>
    have hi : i < l.length := by omega
    have hg : l.getD i d = l[i] := by
      simp [List.getD_eq_getElem?_getD, List.getElem?_eq_getElem hi]
    rw [loopFrom, ih (i + 1) _ (by omega), List.drop_eq_getElem_cons hi, List.take_succ_cons,
      List.foldl_cons, hg]

/-- The running best never gets worse. -/
theorem foldl_best_le {α : Type} (fit : α → ℚ) (l : List α) (b0 : α) :
    fit (l.foldl (fun b x => if fit x < fit b then x else b) b0) ≤ fit b0 := by
  induction l generalizing b0 with
  | nil => exact le_refl _
  | cons x xs ih =>
    rw [List.foldl_cons]
    by_cases h : fit x < fit b0
    · rw [if_pos h]
      exact le_trans (ih x) (le_of_lt h)
    · rw [if_neg h]
      exact ih b0

/-- The final best is at least as good as every element visited. -/
theorem foldl_best_le_mem {α : Type} (fit : α → ℚ) (l : List α) (b0 : α) :
    ∀ x ∈ l, fit (l.foldl (fun b x => if fit x < fit b then x else b) b0) ≤ fit x := by
  induction l generalizing b0 with
  | nil => intro x hx; cases hx
  | cons y ys ih =>
    intro x hx
    rw [List.foldl_cons]
    rcases List.mem_cons.mp hx with rfl | hx
    · by_cases h : fit x < fit b0
      · rw [if_pos h]
        exact foldl_best_le fit ys x
      · rw [if_neg h]
        exact le_trans (foldl_best_le fit ys b0) (not_lt.mp h)
    · exact ih _ x hx

/-- The final best is the old best or one of the elements visited. -/
theorem foldl_best_mem {α : Type} (fit : α → ℚ) (l : List α) (b0 : α) :
    l.foldl (fun b x => if fit x < fit b then x else b) b0 = b0 ∨
      l.foldl (fun b x => if fit x < fit b then x else b) b0 ∈ l := by
  induction l generalizing b0 with
  | nil => exact Or.inl rfl
  | cons y ys ih =>
    rw [List.foldl_cons]
    by_cases h : fit y < fit b0
    · rw [if_pos h]
      rcases ih y with h1 | h1
      · rw [h1]
        exact Or.inr (List.mem_cons_self _ _)
      · exact Or.inr (List.mem_cons_of_mem _ h1)
    · rw [if_neg h]
      rcases ih b0 with h1 | h1
      · exact Or.inl h1
      · exact Or.inr (List.mem_cons_of_mem _ h1)

/-- When no element is strictly better, the old best is kept. -/
theorem foldl_best_keep {α : Type} (fit : α → ℚ) (l : List α) (b0 : α)
    (h : ∀ x ∈ l, ¬ fit x < fit b0) :
    l.foldl (fun b x => if fit x < fit b then x else b) b0 = b0 := by
  induction l with
  | nil => rfl
  | cons y ys ih =>
    rw [List.foldl_cons, if_neg (h y (List.mem_cons_self _ _))]
    exact ih (fun x hx => h x (List.mem_cons_of_mem _ hx))

/-- When some element is strictly better, the final best is the first element of minimal
fitness. -/
theorem foldl_best_first {α : Type} (fit : α → ℚ) (l : List α) (b0 : α)
    (h : ∃ x ∈ l, fit x < fit b0) :
    ∃ i, l[i]? = some (l.foldl (fun b x => if fit x < fit b then x else b) b0) ∧
      ∀ (j : Nat) (x : α), j < i → l[j]? = some x →
        fit (l.foldl (fun b x => if fit x < fit b then x else b) b0) < fit x := by
  induction l generalizing b0 with
  | nil =>
    obtain ⟨x, hx, _⟩ := h
    cases hx
  | cons y ys ih =>
    rw [List.foldl_cons]
    by_cases hy : fit y < fit b0
    · rw [if_pos hy]
      by_cases hex : ∃ x ∈ ys, fit x < fit y
      · obtain ⟨i, hi, hfirst⟩ := ih y hex
        refine ⟨i + 1, by simpa using hi, ?_⟩
        intro j x hj hjx
        cases j with
        | zero =>
          have hxy : x = y := by simpa using hjx.symm
          obtain ⟨z, hz, hzy⟩ := hex
          rw [hxy]
          exact lt_of_le_of_lt (foldl_best_le_mem fit ys y z hz) hzy
        | succ j => exact hfirst j x (by omega) (by simpa using hjx)
      · have hkeep := foldl_best_keep fit ys y (fun x hx hlt => hex ⟨x, hx, hlt⟩)
        rw [hkeep]
        exact ⟨0, by simp, fun j x hj _ => absurd hj (Nat.not_lt_zero j)⟩
    · rw [if_neg hy]
      have hex : ∃ x ∈ ys, fit x < fit b0 := by
        obtain ⟨x, hx, hlt⟩ := h
        rcases List.mem_cons.mp hx with rfl | hx
        · exact absurd hlt hy
        · exact ⟨x, hx, hlt⟩
      obtain ⟨i, hi, hfirst⟩ := ih b0 hex
      refine ⟨i + 1, by simpa using hi, ?_⟩
      intro j x hj hjx
      cases j with
      | zero =>
        have hxy : x = y := by simpa using hjx.symm
        obtain ⟨z, hz, hzb⟩ := hex
        rw [hxy]
        exact lt_of_lt_of_le (lt_of_le_of_lt (foldl_best_le_mem fit ys b0 z hz) hzb)
          (not_lt.mp hy)
      | succ j => exact hfirst j x (by omega) (by simpa using hjx)

namespace LionSwarm

/-- The loop of `update_best` changes `best_lion` only. -/
theorem update_best_loop (k i : Nat) (s : State) :
    loopFrom (fun i (s : State) =>
      if (s.pride.getD i default).fitness < s.best_lion.fitness then
        { s with best_lion := s.pride.getD i default }
      else s) k i s =
    { s with best_lion :=
        loopFrom (fun j b => (fun (x b : Lion) => if x.fitness < b.fitness then x else b)
          (s.pride.getD j default) b) k i s.best_lion } := by
  induction k generalizing i s with
  | zero => rfl
  | succ k ih =>
    rw [loopFrom, ih, loopFrom]
    by_cases h : (s.pride.getD i default).fitness < s.best_lion.fitness
    · simp only [if_pos h]
    · simp only [if_neg h]

/-- On an array of `LIONS` lions `update_best` is a fold over the array. -/
theorem update_best_eq (s : State) (hlen : s.pride.length = LIONS) :
    update_best s =
      { s with best_lion :=
          s.pride.foldl (fun b x => if x.fitness < b.fitness then x else b) s.best_lion } := by
  unfold update_best
  rw [update_best_loop,
    loopFrom_getD_foldl (fun (x b : Lion) => if x.fitness < b.fitness then x else b) s.pride
      default LIONS 0 s.best_lion (by omega),
    List.drop_zero, ← hlen, List.take_length]

end LionSwarm

/-! ## The lion-swarm main loop -/

/-- A loop whose body does nothing does nothing. -/
theorem loopFrom_const {σ : Type} (k i : Nat) (s : σ) : loopFrom (fun _ t => t) k i s = s := by
  induction k generalizing i with
  | zero => rfl
  | succ k ih => rw [loopFrom, ih]

/-- A loop that overwrites element `j` with a value computed from a counter, and advances
the counter by `c`, at every iteration `j`. -/
theorem loopFrom_fill (g : Nat → ℚ) (c k i : Nat) (t : List ℚ × Nat) :
    (loopFrom (fun j (t : List ℚ × Nat) => (t.1.set j (g t.2), t.2 + c)) k i t).2 =
      t.2 + k * c ∧
    (loopFrom (fun j (t : List ℚ × Nat) => (t.1.set j (g t.2), t.2 + c)) k i t).1.length =
      t.1.length ∧
    ∀ m, (loopFrom (fun j (t : List ℚ × Nat) => (t.1.set j (g t.2), t.2 + c)) k i t).1[m]? =
      if i ≤ m ∧ m < i + k ∧ m < t.1.length then some (g (t.2 + (m - i) * c)) else t.1[m]? := by
  obtain ⟨F, d⟩ := t
  simp only []
  induction k generalizing i F d with
  | zero =>
    refine ⟨by simp [loopFrom], rfl, fun m => ?_⟩
    have h : ¬ (i ≤ m ∧ m < i + 0 ∧ m < F.length) := by omega
    rw [if_neg h]
    rfl
  | succ k ih =>
    rw [loopFrom]
    obtain ⟨h1, h2, h3⟩ := ih (i + 1) (F.set i (g d)) (d + c)
    refine ⟨?_, ?_, fun m => ?_⟩
    · rw [h1, Nat.succ_mul]
      omega
    · rw [h2, List.length_set]
    · rw [h3 m, List.length_set, List.getElem?_set]
      by_cases him : i = m
      · subst him
        have hn : ¬ (i + 1 ≤ i ∧ i < i + 1 + k ∧ i < F.length) := by omega
        rw [if_neg hn, if_pos rfl]
        by_cases hl : i < F.length
        · have hp : i ≤ i ∧ i < i + (k + 1) ∧ i < F.length := by omega
          rw [if_pos hl, if_pos hp]
          simp
        · have hp : ¬ (i ≤ i ∧ i < i + (k + 1) ∧ i < F.length) := by omega
          rw [if_neg hl, if_neg hp, List.getElem?_eq_none (Nat.le_of_not_lt hl)]
      · rw [if_neg him]
        by_cases hp : i + 1 ≤ m ∧ m < i + 1 + k ∧ m < F.length
        · have hq : i ≤ m ∧ m < i + (k + 1) ∧ m < F.length := by omega
          rw [if_pos hp, if_pos hq]
          have he : d + c + (m - (i + 1)) * c = d + (m - i) * c := by
            obtain ⟨hp1, _, _⟩ := hp
            obtain ⟨e, rfl⟩ := Nat.exists_eq_add_of_le hp1
            have e1 : i + 1 + e - (i + 1) = e := by omega
            have e2 : i + 1 + e - i = e + 1 := by omega
            rw [e1, e2, Nat.succ_mul]
            omega
          rw [he]
        · have hq : ¬ (i ≤ m ∧ m < i + (k + 1) ∧ m < F.length) := by omega
          rw [if_neg hp, if_neg hq]

namespace LionSwarm

/-- Overwriting the fitness of a lion overwrites one entry of the fitness vector. -/
theorem map_fitness_set (l : List Lion) (i : Nat) (x : Lion) :
    (l.set i x).map Lion.fitness = (l.map Lion.fitness).set i x.fitness := by
  apply List.ext_getElem?
  intro j
  rw [List.getElem?_map, List.getElem?_set, List.getElem?_set, List.length_map,
    List.getElem?_map]
  by_cases h : i = j
  · rw [if_pos h, if_pos h]
    by_cases hl : i < l.length
    · rw [if_pos hl, if_pos hl]
      rfl
    · rw [if_neg hl, if_neg hl]
      rfl
  · rw [if_neg h, if_neg h]

/-- The fitness of `l[i]`, read off the fitness vector. -/
theorem getD_fitness (l : List Lion) (i : Nat) :
    (l.getD i default).fitness = (l.map Lion.fitness).getD i 0 := by
  rw [List.getD_eq_getElem?_getD, List.getD_eq_getElem?_getD, List.getElem?_map]
  cases l[i]? <;> rfl

/-- The inner loop `assign_jobs` changes no fitness and makes `JOBS` draws. -/
theorem assign_jobs_view (rnd : Nat → Nat) (i : Nat) (s : State) :
    view (assign_jobs rnd i s) = ((view s).1, (view s).2 + JOBS) := by
  unfold assign_jobs
  rw [loopFrom_proj view _ (fun _ t => (t.1, t.2 + 1))]
  · generalize view s = t
    generalize JOBS = k
    generalize 0 = j
    induction k generalizing j t with
    | zero => rfl
    | succ k ih =>
      rw [loopFrom, ih]
      simp only [Prod.mk.injEq, true_and]
      omega
  · intro j s
    simp only [view, map_fitness_set, Prod.mk.injEq, and_true]
    rw [← map_fitness_set, set_getD_self]

/-- The inner loop `assign_jobs` changes neither `best_lion` nor the output. -/
theorem assign_jobs_rest (rnd : Nat → Nat) (i : Nat) (s : State) :
    rest (assign_jobs rnd i s) = rest s := by
  unfold assign_jobs
  refine (loopFrom_proj rest _ (fun _ t => t) ?_ _ _ _).trans (loopFrom_const _ _ _)
  intro j s
  rfl

/-- The function `initialize_population`, on the fitness vector and the draw counter. -/
theorem initialize_population_view (rnd : Nat → Nat) (s : State) :
    view (initialize_population rnd s) =
      loopFrom (fun j (t : List ℚ × Nat) =>
        (t.1.set j (fitness rnd (t.2 + JOBS)).1, t.2 + (JOBS + 1))) LIONS 0
        (view s) := by
  unfold initialize_population
  apply loopFrom_proj view
  intro i s
  have h := assign_jobs_view rnd i s
  simp only [view, Prod.mk.injEq] at h
  simp only [view, map_fitness_set, h.1, h.2, fitness]
  rw [Nat.add_assoc]

/-- The function `initialize_population` changes neither `best_lion` nor the output. -/
theorem initialize_population_rest (rnd : Nat → Nat) (s : State) :
    rest (initialize_population rnd s) = rest s := by
  unfold initialize_population
  refine (loopFrom_proj rest _ (fun _ t => t) ?_ _ _ _).trans (loopFrom_const _ _ _)
  intro i s
  have h := assign_jobs_rest rnd i s
  simp only [rest, Prod.mk.injEq] at h ⊢
  exact h

/-- The function `lion_hunting`, on the fitness vector and the draw counter. -/
theorem lion_hunting_view (rnd : Nat → Nat) (s : State) :
    view (lion_hunting rnd s) =
      loopFrom (fun j (t : List ℚ × Nat) =>
        (t.1.set j (fitness rnd t.2).1, t.2 + 1)) LIONS 0 (view s) := by
  unfold lion_hunting
  apply loopFrom_proj view
  intro i s
  simp only [view, map_fitness_set, fitness]

/-- The function `lion_hunting` changes neither `best_lion` nor the output. -/
theorem lion_hunting_rest (rnd : Nat → Nat) (s : State) :
    rest (lion_hunting rnd s) = rest s := by
  unfold lion_hunting
  refine (loopFrom_proj rest _ (fun _ t => t) ?_ _ _ _).trans (loopFrom_const _ _ _)
  intro i s
  rfl

theorem update_best_pride (s : State) : (update_best s).pride = s.pride := by
  unfold update_best
  rw [update_best_loop]

theorem update_best_out (s : State) : (update_best s).out = s.out := by
  unfold update_best
  rw [update_best_loop]

/-- What `lion_hunting` does to the fitness vector and to the draw counter. -/
theorem lion_hunting_fill (rnd : Nat → Nat) (s : State) :
    (lion_hunting rnd s).draws = s.draws + LIONS * 1 ∧
    (lion_hunting rnd s).pride.length = s.pride.length ∧
    ∀ m, ((lion_hunting rnd s).pride.map Lion.fitness)[m]? =
      if 0 ≤ m ∧ m < 0 + LIONS ∧ m < s.pride.length then some (fitness rnd (s.draws + (m - 0) * 1)).1
      else (s.pride.map Lion.fitness)[m]? := by
  have hf := loopFrom_fill (fun d => (fitness rnd d).1) 1 LIONS 0 (view s)
  beta_reduce at hf
  rw [← lion_hunting_view] at hf
  revert hf
  generalize lion_hunting rnd s = x
  intro hf
  simp only [view, List.length_map] at hf
  exact hf

/-- What `initialize_population` does to the fitness vector and to the draw counter. -/
theorem initialize_population_fill (rnd : Nat → Nat) (s : State) :
    (initialize_population rnd s).draws = s.draws + LIONS * (JOBS + 1) ∧
    (initialize_population rnd s).pride.length = s.pride.length ∧
    ∀ m, ((initialize_population rnd s).pride.map Lion.fitness)[m]? =
      if 0 ≤ m ∧ m < 0 + LIONS ∧ m < s.pride.length then
        some (fitness rnd (s.draws + (m - 0) * (JOBS + 1) + JOBS)).1
      else (s.pride.map Lion.fitness)[m]? := by
  have hf := loopFrom_fill (fun d => (fitness rnd (d + JOBS)).1) (JOBS + 1) LIONS 0 (view s)
  beta_reduce at hf
  rw [← initialize_population_view] at hf
  revert hf
  generalize initialize_population rnd s = x
  intro hf
  simp only [view, List.length_map] at hf
  exact hf

theorem lion_hunting_length (rnd : Nat → Nat) (s : State) :
    (lion_hunting rnd s).pride.length = s.pride.length :=
  (lion_hunting_fill rnd s).2.1

theorem initialize_population_length (rnd : Nat → Nat) (s : State) :
    (initialize_population rnd s).pride.length = s.pride.length :=
  (initialize_population_fill rnd s).2.1

/-- The fitness of lion `m` after `initialize_population`: the draw that follows the
`JOBS` job draws of lion `m`. -/
theorem initialize_population_fitness (rnd : Nat → Nat) (m : Nat) (hm : m < LIONS) :
    ((initialize_population rnd start).pride.map Lion.fitness)[m]? =
      some (fitness rnd (m * (JOBS + 1) + JOBS)).1 := by
  have hl : start.pride.length = LIONS := by simp [start]
  have hc : 0 ≤ m ∧ m < 0 + LIONS ∧ m < start.pride.length := by omega
  rw [(initialize_population_fill rnd start).2.2 m, if_pos hc]
  simp [start]

/-- The number of draws `initialize_population` makes. -/
theorem initialize_population_draws (rnd : Nat → Nat) :
    (initialize_population rnd start).draws = LIONS * (JOBS + 1) := by
  rw [(initialize_population_fill rnd start).1]
  simp [start]

/-- Every fitness in the pride after `lion_hunting` is a value drawn during that call. -/
theorem lion_hunting_fitness (rnd : Nat → Nat) (s : State) (hlen : s.pride.length = LIONS) :
    ∀ v ∈ (lion_hunting rnd s).pride.map Lion.fitness,
      ∃ m, v = (fitness rnd (s.draws + m)).1 := by
  intro v hv
  obtain ⟨m, hm⟩ := List.mem_iff_getElem?.mp hv
  have hml : m < ((lion_hunting rnd s).pride.map Lion.fitness).length := by
    rcases Nat.lt_or_ge m ((lion_hunting rnd s).pride.map Lion.fitness).length with h1 | h1
    · exact h1
    · rw [List.getElem?_eq_none h1] at hm
      cases hm
  rw [List.length_map, lion_hunting_length, hlen] at hml
  have hc : 0 ≤ m ∧ m < 0 + LIONS ∧ m < s.pride.length := by omega
  rw [(lion_hunting_fill rnd s).2.2 m, if_pos hc] at hm
  refine ⟨m, ?_⟩
  have h2 := Option.some.inj hm
  rw [← h2]
  simp

theorem main_init_length (rnd : Nat → Nat) : (main_init rnd).pride.length = LIONS := by
  unfold main_init
  simp only []
  rw [initialize_population_length]
  simp [start]

theorem main_init_out (rnd : Nat → Nat) : (main_init rnd).out = [] := by
  have h := initialize_population_rest rnd start
  simp only [rest, Prod.mk.injEq] at h
  unfold main_init
  simp only []
  rw [h.2]
  rfl

theorem main_loop_succ (rnd : Nat → Nat) (n : Nat) :
    main_loop rnd (n + 1) = main_body rnd n (main_loop rnd n) := by
  unfold main_loop
  rw [loopFrom_succ_last, Nat.zero_add]

theorem main_body_pride (rnd : Nat → Nat) (i : Nat) (s : State) :
    (main_body rnd i s).pride = (lion_hunting rnd s).pride := by
  unfold main_body
  simp only []
  rw [update_best_pride]

theorem main_loop_length (rnd : Nat → Nat) (n : Nat) :
    (main_loop rnd n).pride.length = LIONS := by
  induction n with
  | zero => exact main_init_length rnd
  | succ n ih => rw [main_loop_succ, main_body_pride, lion_hunting_length, ih]

/-- The best lion after one more iteration: a fold over the freshly evaluated pride,
starting from the best lion so far. -/
theorem main_loop_best_succ (rnd : Nat → Nat) (n : Nat) :
    (main_loop rnd (n + 1)).best_lion =
      (lion_hunting rnd (main_loop rnd n)).pride.foldl
        (fun b x => if x.fitness < b.fitness then x else b) (main_loop rnd n).best_lion := by
  have hr := lion_hunting_rest rnd (main_loop rnd n)
  simp only [rest, Prod.mk.injEq] at hr
  have hl : (lion_hunting rnd (main_loop rnd n)).pride.length = LIONS := by
    rw [lion_hunting_length, main_loop_length]
  rw [main_loop_succ]
  unfold main_body
  simp only []
  rw [update_best_eq _ hl, hr.1]

/-- The output after one more iteration: one more line, reporting the new best. -/
theorem main_loop_out_succ (rnd : Nat → Nat) (n : Nat) :
    (main_loop rnd (n + 1)).out = (main_loop rnd n).out ++
      [⟨"Best Lion at iteration %d has fitness %.2f",
        [.int n, .dbl (main_loop rnd (n + 1)).best_lion.fitness]⟩] := by
  have hr := lion_hunting_rest rnd (main_loop rnd n)
  simp only [rest, Prod.mk.injEq] at hr
  rw [main_loop_succ]
  unfold main_body
  simp only []
  rw [update_best_out, hr.2]

theorem main_loop_out_length (rnd : Nat → Nat) (n : Nat) : (main_loop rnd n).out.length = n := by
  induction n with
  | zero => rw [main_loop, loopFrom, main_init_out]; rfl
  | succ n ih => rw [main_loop_out_succ, List.length_append, ih]; rfl

/-- Line `i` of the output reports the best fitness after iteration `i`. -/
theorem main_loop_out_get (rnd : Nat → Nat) (n i : Nat) (h : i < n) :
    (main_loop rnd n).out[i]? =
      some ⟨"Best Lion at iteration %d has fitness %.2f",
        [.int i, .dbl (main_loop rnd (i + 1)).best_lion.fitness]⟩ := by
  induction n with
  | zero => omega
  | succ n ih =>
    rw [main_loop_out_succ]
    by_cases hi : i < n
    · rw [List.getElem?_append_left (by rw [main_loop_out_length]; exact hi)]
      exact ih hi
    · have hin : i = n := by omega
      subst hin
      rw [List.getElem?_append_right (by rw [main_loop_out_length]), main_loop_out_length]
      simp

/-- One iteration never makes the best fitness worse. -/
theorem main_loop_best_le (rnd : Nat → Nat) (n : Nat) :
    (main_loop rnd (n + 1)).best_lion.fitness ≤ (main_loop rnd n).best_lion.fitness := by
  rw [main_loop_best_succ]
  exact foldl_best_le Lion.fitness _ _

/-- The best fitness is the least of the initial fitness of `pride[0]` and the values
computed by the calls of `lion_hunting` so far. -/
theorem best_min_aux (rnd : Nat → Nat) (n : Nat) :
    (main_loop rnd n).best_lion.fitness ∈
      ((initialize_population rnd start).pride.getD 0 default).fitness :: huntedValues rnd n ∧
    ∀ v ∈ ((initialize_population rnd start).pride.getD 0 default).fitness :: huntedValues rnd n,
      (main_loop rnd n).best_lion.fitness ≤ v := by
  induction n with
  | zero =>
    rw [main_loop, loopFrom, main_init]
    simp [huntedValues]
  | succ n ih =>
    obtain ⟨hmem, hle⟩ := ih
    have hb := main_loop_best_succ rnd n
    constructor
    · rcases foldl_best_mem Lion.fitness (lion_hunting rnd (main_loop rnd n)).pride
        (main_loop rnd n).best_lion with h1 | h1
      · rw [hb, h1]
        rcases List.mem_cons.mp hmem with h2 | h2
        · exact List.mem_cons.mpr (Or.inl h2)
        · exact List.mem_cons.mpr (Or.inr (List.mem_append_left _ h2))
      · rw [hb]
        exact List.mem_cons.mpr (Or.inr (List.mem_append_right _ (List.mem_map_of_mem _ h1)))
    · intro v hv
      rcases List.mem_cons.mp hv with h2 | h2
      · exact le_trans (main_loop_best_le rnd n) (hle v (List.mem_cons.mpr (Or.inl h2)))
      · rcases List.mem_append.mp h2 with h3 | h3
        · exact le_trans (main_loop_best_le rnd n) (hle v (List.mem_cons.mpr (Or.inr h3)))
        · obtain ⟨x, hx, rfl⟩ := List.mem_map.mp h3
          rw [hb]
          exact foldl_best_le_mem Lion.fitness _ _ x hx

/-- Claim C1. `update_best` (the C function, on an array of `LIONS` lions, and the C++
function, on any vector) leaves `best_lion` equal to the better of the old `best_lion`
and the members of `pride`: when some member is strictly fitter than the old best, the
new best is the member of lowest index among those of minimal fitness; when none is, the
old best is kept as it is. The pride itself is not changed. -/
theorem update_best_better_of (s : State) (hlen : s.pride.length = LIONS)
    (pride : List PSLSO.Lion) (best_lion : PSLSO.Lion) :
    ((update_best s).pride = s.pride ∧
     ((∃ l ∈ s.pride, l.fitness < s.best_lion.fitness) →
        ∃ i, s.pride[i]? = some (update_best s).best_lion ∧
          (∀ l ∈ s.pride, (update_best s).best_lion.fitness ≤ l.fitness) ∧
          ∀ (j : Nat) (l : Lion), j < i → s.pride[j]? = some l →
            (update_best s).best_lion.fitness < l.fitness) ∧
     ((∀ l ∈ s.pride, ¬ l.fitness < s.best_lion.fitness) →
        (update_best s).best_lion = s.best_lion)) ∧
    (((∃ l ∈ pride, l.fitness < best_lion.fitness) →
        ∃ i, pride[i]? = some (PSLSO.update_best pride best_lion) ∧
          (∀ l ∈ pride, (PSLSO.update_best pride best_lion).fitness ≤ l.fitness) ∧
          ∀ (j : Nat) (l : PSLSO.Lion), j < i → pride[j]? = some l →
            (PSLSO.update_best pride best_lion).fitness < l.fitness) ∧
     ((∀ l ∈ pride, ¬ l.fitness < best_lion.fitness) →
        PSLSO.update_best pride best_lion = best_lion)) := by
  refine ⟨⟨update_best_pride s, ?_, ?_⟩, ?_, ?_⟩
  · intro h
    rw [update_best_eq s hlen]
    obtain ⟨i, hi, hfirst⟩ := foldl_best_first Lion.fitness s.pride s.best_lion h
    exact ⟨i, hi, foldl_best_le_mem Lion.fitness s.pride s.best_lion, hfirst⟩
  · intro h
    rw [update_best_eq s hlen]
    exact foldl_best_keep Lion.fitness s.pride s.best_lion h
  · intro h
    obtain ⟨i, hi, hfirst⟩ := foldl_best_first PSLSO.Lion.fitness pride best_lion h
    exact ⟨i, hi, foldl_best_le_mem PSLSO.Lion.fitness pride best_lion, hfirst⟩
  · intro h
    exact foldl_best_keep PSLSO.Lion.fitness pride best_lion h

/-- Witness of C1: on the sample state the lion of fitness 2, the last of the pride,
replaces the best of fitness 3. -/
theorem update_best_better_of_witness :
    sampleState.pride.length = LIONS ∧
    (∃ l ∈ sampleState.pride, l.fitness < sampleState.best_lion.fitness) ∧
    (∃ i, sampleState.pride[i]? = some (update_best sampleState).best_lion ∧
      (∀ l ∈ sampleState.pride, (update_best sampleState).best_lion.fitness ≤ l.fitness) ∧
      ∀ (j : Nat) (l : Lion), j < i → sampleState.pride[j]? = some l →
        (update_best sampleState).best_lion.fitness < l.fitness) :=
  ⟨by simp [sampleState, LIONS],
   ⟨⟨List.replicate JOBS 1, 2⟩, by simp [sampleState], by norm_num [sampleState]⟩,
   (update_best_better_of sampleState (by simp [sampleState, LIONS]) PSLSO.samplePride
      PSLSO.sampleBest).1.2.1
     ⟨⟨List.replicate JOBS 1, 2⟩, by simp [sampleState], by norm_num [sampleState]⟩⟩

/-- Claim C2. In every run of `main` (for every stream of draws) the program prints
`ITERATIONS` lines, line `i` reports the fitness of `best_lion` after iteration `i`, and
the fitness reported by line `i + 1` is at most the one reported by line `i`. -/
theorem main_best_fitness_monotone (rnd : Nat → Nat) (i : Nat) (h : i + 1 < ITERATIONS) :
    (main rnd).out.length = ITERATIONS ∧
    ∃ p q, (main rnd).out[i]? = some p ∧ (main rnd).out[i + 1]? = some q ∧
      reported p = (main_loop rnd (i + 1)).best_lion.fitness ∧
      reported q = (main_loop rnd (i + 2)).best_lion.fitness ∧
      reported q ≤ reported p := by
  refine ⟨main_loop_out_length rnd ITERATIONS, _, _,
    main_loop_out_get rnd ITERATIONS i (by omega),
    main_loop_out_get rnd ITERATIONS (i + 1) h, rfl, rfl, ?_⟩
  exact main_loop_best_le rnd (i + 1)

/-- Witness of C2: the first two lines of the run on the stream `badStream`. -/
theorem main_best_fitness_monotone_witness :
    0 + 1 < ITERATIONS ∧
    ((main badStream).out.length = ITERATIONS ∧
    ∃ p q, (main badStream).out[0]? = some p ∧ (main badStream).out[0 + 1]? = some q ∧
      reported p = (main_loop badStream (0 + 1)).best_lion.fitness ∧
      reported q = (main_loop badStream (0 + 2)).best_lion.fitness ∧
      reported q ≤ reported p) :=
  ⟨by decide, main_best_fitness_monotone badStream 0 (by decide)⟩

/-- Claim C3, as amended. After the `update_best` call of iteration `n`, the fitness of
`best_lion` is the least of: the fitness `initialize_population` gave to `pride[0]`, and
every fitness computed by the calls of `lion_hunting` made so far. -/
theorem best_is_min_of_first_and_hunted (rnd : Nat → Nat) (n : Nat) :
    (main_loop rnd (n + 1)).best_lion.fitness ∈
      ((initialize_population rnd start).pride.getD 0 default).fitness ::
        huntedValues rnd (n + 1) ∧
    ∀ v ∈ ((initialize_population rnd start).pride.getD 0 default).fitness ::
        huntedValues rnd (n + 1),
      (main_loop rnd (n + 1)).best_lion.fitness ≤ v :=
  best_min_aux rnd (n + 1)

/-- Claim C3 as stated fails. On the stream `badStream`, `initialize_population` gives
`pride[1]` the fitness 0, every other fitness computed up to the end of iteration 0 is 5,
and after the `update_best` call of iteration 0 the fitness of `best_lion` is 5: it is
not the least fitness computed so far. -/
theorem best_misses_initial_value :
    (0 : ℚ) ∈ initialValues badStream ∧
    (main_loop badStream 1).best_lion.fitness = 5 ∧
    ¬ (∀ v ∈ initialValues badStream ++ huntedValues badStream 1,
        (main_loop badStream 1).best_lion.fitness ≤ v) := by
  have h0 : (0 : ℚ) ∈ initialValues badStream := by
    apply List.mem_iff_getElem?.mpr
    refine ⟨1, ?_⟩
    unfold initialValues
    rw [initialize_population_fitness badStream 1 (by decide)]
    norm_num [fitness, badStream, JOBS]
  have hinit : (main_loop badStream 0).best_lion.fitness = 5 := by
    rw [main_loop, loopFrom, main_init]
    simp only []
    rw [getD_fitness, List.getD_eq_getElem?_getD,
      initialize_population_fitness badStream 0 (by decide)]
    norm_num [fitness, badStream, JOBS]
  have hdraws : (main_loop badStream 0).draws = LIONS * (JOBS + 1) := by
    rw [main_loop, loopFrom, main_init]
    exact initialize_population_draws badStream
  have hkeep : (main_loop badStream 1).best_lion = (main_loop badStream 0).best_lion := by
    rw [main_loop_best_succ]
    apply foldl_best_keep
    intro x hx
    obtain ⟨m, hm⟩ := lion_hunting_fitness badStream (main_loop badStream 0)
      (main_loop_length badStream 0) x.fitness (List.mem_map_of_mem _ hx)
    rw [hm, hinit, hdraws]
    have hne : LIONS * (JOBS + 1) + m ≠ 101 := by
      unfold LIONS JOBS
      omega
    norm_num [fitness, badStream, hne]
  have h5 : (main_loop badStream 1).best_lion.fitness = 5 := by rw [hkeep, hinit]
  refine ⟨h0, h5, ?_⟩
  intro hall
  have := hall 0 (List.mem_append_left _ h0)
  rw [h5] at this
  norm_num at this

end LionSwarm

/-! ## Moving the lions toward the best one -/

namespace LHD

/-- A row moved toward itself stays where it is. -/
theorem moveRow_self (B : List ℚ) : moveRow B B = B := by
  unfold moveRow
  induction B with
  | nil => rfl
  | cons x xs ih =>
    rw [List.zipWith_cons_cons, ih]
    congr 1
    ring

/-- One coordinate of a moved row. -/
theorem moveRow_getD (r B : List ℚ) (d : Nat) (hr : d < r.length) (hB : d < B.length) :
    (moveRow r B).getD d 0 = r.getD d 0 + 1 / 10 * (B.getD d 0 - r.getD d 0) := by
  unfold moveRow
  induction r generalizing B d with
  | nil => cases hr
  | cons x xs ih =>
    cases B with
    | nil => cases hB
    | cons y ys =>
      rw [List.zipWith_cons_cons]
      cases d with
      | zero => rfl
      | succ d =>
        simp only [List.getD_cons_succ]
        exact ih ys d (Nat.lt_of_succ_lt_succ hr) (Nat.lt_of_succ_lt_succ hB)

/-- Updating row `i` leaves what `best_lion` refers to as it is. -/
theorem read_set (best_lion : BestRef) (ls : List (List ℚ)) (i : Nat) :
    best_lion.read (ls.set i (moveRow (ls.getD i []) (best_lion.read ls))) =
      best_lion.read ls := by
  cases best_lion with
  | own v => rfl
  | row b =>
    simp only [BestRef.read]
    by_cases hib : i = b
    · subst hib
      rw [moveRow_self, set_getD_self]
    · rw [List.getD_eq_getElem?_getD, List.getElem?_set, if_neg hib,
        ← List.getD_eq_getElem?_getD]

/-- The loop of `update_positions` moves every row toward the vector `best_lion` refers to
on entry, and leaves that vector as it is. -/
theorem update_positions_loop (best_lion : BestRef) (B : List ℚ) (k i : Nat)
    (ls : List (List ℚ)) (h : best_lion.read ls = B) :
    loopFrom (fun i ls => ls.set i (moveRow (ls.getD i []) (best_lion.read ls))) k i ls =
      loopFrom (fun j s => s.set j ((fun r => moveRow r B) (s.getD j []))) k i ls ∧
    best_lion.read
      (loopFrom (fun i ls => ls.set i (moveRow (ls.getD i []) (best_lion.read ls))) k i ls) =
      B := by
  induction k generalizing i ls with
  | zero => exact ⟨rfl, h⟩
  | succ k ih =>
    have hs : best_lion.read (ls.set i (moveRow (ls.getD i []) (best_lion.read ls))) = B := by
      rw [read_set, h]
    obtain ⟨h1, h2⟩ := ih (i + 1) _ hs
    rw [loopFrom, loopFrom]
    refine ⟨?_, h2⟩
    rw [h1, h]

/-- Claim C5. `update_positions` replaces every coordinate `v` of every lion by
`v + 0.1 * (best - v)`, where `best` is the matching coordinate of `best_lion` (rows and
`best_lion` having the same number `D` of coordinates): the gap to `best_lion` becomes
0.9 times the old gap, a lion equal to `best_lion` is unchanged, and so is `best_lion`
itself, also when it is a view of a row of the population. -/
theorem update_positions_spec (lions : List (List ℚ)) (best_lion : BestRef) (D : Nat)
    (hrows : ∀ r ∈ lions, r.length = D) (hbest : (best_lion.read lions).length = D) :
    update_positions lions best_lion =
      lions.map (fun r => moveRow r (best_lion.read lions)) ∧
    best_lion.read (update_positions lions best_lion) = best_lion.read lions ∧
    (∀ i d, i < lions.length → d < D →
      ((update_positions lions best_lion).getD i []).getD d 0 =
        (lions.getD i []).getD d 0 +
          1 / 10 * ((best_lion.read lions).getD d 0 - (lions.getD i []).getD d 0) ∧
      (best_lion.read lions).getD d 0 -
          ((update_positions lions best_lion).getD i []).getD d 0 =
        9 / 10 * ((best_lion.read lions).getD d 0 - (lions.getD i []).getD d 0)) ∧
    (∀ i, i < lions.length → lions.getD i [] = best_lion.read lions →
      (update_positions lions best_lion).getD i [] = lions.getD i []) := by
  obtain ⟨h1, h2⟩ := update_positions_loop best_lion (best_lion.read lions) lions.length 0
    lions rfl
  have hmap : update_positions lions best_lion =
      lions.map (fun r => moveRow r (best_lion.read lions)) := by
    unfold update_positions
    rw [h1, loopFrom_set_eq (fun r => moveRow r (best_lion.read lions)) [] lions.length lions]
    simp
  have hrow : ∀ i, i < lions.length → (update_positions lions best_lion).getD i [] =
      moveRow (lions.getD i []) (best_lion.read lions) := by
    intro i hi
    rw [hmap, List.getD_eq_getElem?_getD, List.getD_eq_getElem?_getD, List.getElem?_map,
      List.getElem?_eq_getElem hi]
    rfl
  refine ⟨hmap, ?_, ?_, ?_⟩
  · unfold update_positions
    exact h2
  · intro i d hi hd
    have hmem : lions.getD i [] ∈ lions := by
      rw [List.getD_eq_getElem?_getD, List.getElem?_eq_getElem hi]
      exact List.getElem_mem hi
    have hlen := hrows _ hmem
    rw [hrow i hi, moveRow_getD _ _ d (by omega) (by omega)]
    constructor
    · rfl
    · ring
  · intro i hi heq
    rw [hrow i hi, heq, moveRow_self]

/-- Witness of C5: two lions in the plane, `best_lion` being a view of the second. -/
theorem update_positions_spec_witness :
    (∀ r ∈ sampleLions, r.length = 2) ∧ ((BestRef.row 1).read sampleLions).length = 2 ∧
    update_positions sampleLions (.row 1) = [[1 / 10, 91 / 10], [1, 1]] ∧
    update_positions sampleLions (.row 1) =
      sampleLions.map (fun r => moveRow r ((BestRef.row 1).read sampleLions)) :=
  ⟨by simp [sampleLions], by simp [sampleLions, BestRef.read],
   by norm_num [update_positions, sampleLions, loopFrom, moveRow, BestRef.read],
   (update_positions_spec sampleLions (.row 1) 2 (by simp [sampleLions])
      (by simp [sampleLions, BestRef.read])).1⟩

end LHD

/-! ## Mutation of a sparse network -/

namespace SEDL

/-- The draws of weights `1, 2, ..` are the draws that follow those of weight `0`. -/
theorem drawIndex_shift (RAND_MAX : Nat) (rnd : Nat → Nat) (p j : Nat) :
    drawIndex RAND_MAX rnd (if selected RAND_MAX rnd p then p + 2 else p + 1) j =
      drawIndex RAND_MAX rnd p (j + 1) := by
  induction j with
  | zero => rfl
  | succ j ih =>
    rw [drawIndex, ih]
    rfl

/-- The amount added to a mutated weight lies in `[-0.1, 0.1]`. -/
theorem amount_bounds (RAND_MAX : Nat) (rnd : Nat → Nat) (p : Nat) (hRM : 0 < RAND_MAX)
    (hrnd : ∀ k, rnd k ≤ RAND_MAX) :
    -(1 / 10) ≤ amount RAND_MAX rnd p ∧ amount RAND_MAX rnd p ≤ 1 / 10 := by
  unfold amount
  have hpos : (0 : ℚ) < (RAND_MAX : ℚ) := by exact_mod_cast hRM
  have h0 : (0 : ℚ) ≤ (rnd p : ℚ) / (RAND_MAX : ℚ) :=
    div_nonneg (by exact_mod_cast Nat.zero_le _) (le_of_lt hpos)
  have h1 : (rnd p : ℚ) / (RAND_MAX : ℚ) ≤ 1 := by
    rw [div_le_one hpos]
    exact_mod_cast hrnd p
  constructor <;> linarith

/-- The loop of `mutateNetwork`: weight `m` is decided by the draw `drawIndex .. (m - i)`
and, when selected, changed by the amount of the next draw. -/
theorem mutateWeights_loop (RAND_MAX : Nat) (rnd : Nat → Nat) (k i : Nat) (ws : List ℚ)
    (p : Nat) :
    (loopFrom (fun i (s : List ℚ × Nat) =>
      if selected RAND_MAX rnd s.2 then
        (s.1.set i (s.1.getD i 0 + amount RAND_MAX rnd (s.2 + 1)), s.2 + 2)
      else (s.1, s.2 + 1)) k i (ws, p)).2 = drawIndex RAND_MAX rnd p k ∧
    (loopFrom (fun i (s : List ℚ × Nat) =>
      if selected RAND_MAX rnd s.2 then
        (s.1.set i (s.1.getD i 0 + amount RAND_MAX rnd (s.2 + 1)), s.2 + 2)
      else (s.1, s.2 + 1)) k i (ws, p)).1.length = ws.length ∧
    ∀ m, (loopFrom (fun i (s : List ℚ × Nat) =>
      if selected RAND_MAX rnd s.2 then
        (s.1.set i (s.1.getD i 0 + amount RAND_MAX rnd (s.2 + 1)), s.2 + 2)
      else (s.1, s.2 + 1)) k i (ws, p)).1.getD m 0 =
      if i ≤ m ∧ m < i + k ∧ m < ws.length then
        (if selected RAND_MAX rnd (drawIndex RAND_MAX rnd p (m - i)) then
          ws.getD m 0 + amount RAND_MAX rnd (drawIndex RAND_MAX rnd p (m - i) + 1)
        else ws.getD m 0)
      else ws.getD m 0 := by
  induction k generalizing i ws p with
  | zero =>
    refine ⟨rfl, rfl, fun m => ?_⟩
    have h : ¬ (i ≤ m ∧ m < i + 0 ∧ m < ws.length) := by omega
    rw [if_neg h]
    rfl
  | succ k ih =>
    rw [loopFrom]
    have hbody : (if selected RAND_MAX rnd p then
          (ws.set i (ws.getD i 0 + amount RAND_MAX rnd (p + 1)), p + 2)
        else (ws, p + 1)) =
        ((if selected RAND_MAX rnd p then ws.set i (ws.getD i 0 + amount RAND_MAX rnd (p + 1))
          else ws), (if selected RAND_MAX rnd p then p + 2 else p + 1)) := by
      split <;> rfl
    simp only [hbody]
    obtain ⟨h1, h2, h3⟩ := ih (i + 1)
      (if selected RAND_MAX rnd p then ws.set i (ws.getD i 0 + amount RAND_MAX rnd (p + 1))
        else ws) (if selected RAND_MAX rnd p then p + 2 else p + 1)
    have hlen : (if selected RAND_MAX rnd p then
        ws.set i (ws.getD i 0 + amount RAND_MAX rnd (p + 1)) else ws).length = ws.length := by
      split
      · rw [List.length_set]
      · rfl
    refine ⟨?_, ?_, fun m => ?_⟩
    · rw [h1, drawIndex_shift]
    · rw [h2, hlen]
    · rw [h3 m, hlen]
      by_cases him : m = i
      · subst him
        have hn : ¬ (m + 1 ≤ m ∧ m < m + 1 + k ∧ m < ws.length) := by omega
        rw [if_neg hn]
        have hd : drawIndex RAND_MAX rnd p (m - m) = p := by
          rw [Nat.sub_self]
          rfl
        by_cases hl : m < ws.length
        · have hp : m ≤ m ∧ m < m + (k + 1) ∧ m < ws.length := by omega
          rw [if_pos hp, hd]
          by_cases hs : selected RAND_MAX rnd p = true
          · rw [if_pos hs, if_pos hs, List.getD_eq_getElem?_getD, List.getElem?_set,
              if_pos rfl, if_pos hl]
            rfl
          · rw [if_neg hs, if_neg hs]
        · have hp : ¬ (m ≤ m ∧ m < m + (k + 1) ∧ m < ws.length) := by omega
          rw [if_neg hp]
          by_cases hs : selected RAND_MAX rnd p = true
          · rw [if_pos hs, List.getD_eq_getElem?_getD, List.getElem?_set, if_pos rfl,
              if_neg hl, List.getD_eq_getElem?_getD,
              List.getElem?_eq_none (Nat.le_of_not_lt hl)]
          · rw [if_neg hs]
      · have hget : (if selected RAND_MAX rnd p then
            ws.set i (ws.getD i 0 + amount RAND_MAX rnd (p + 1)) else ws).getD m 0 =
            ws.getD m 0 := by
          split
          · rw [List.getD_eq_getElem?_getD, List.getElem?_set, if_neg (Ne.symm him),
              ← List.getD_eq_getElem?_getD]
          · rfl
        rw [hget]
        by_cases hp : i + 1 ≤ m ∧ m < i + 1 + k ∧ m < ws.length
        · have hq : i ≤ m ∧ m < i + (k + 1) ∧ m < ws.length := by omega
          have hsub : m - i = (m - (i + 1)) + 1 := by omega
          rw [if_pos hp, if_pos hq, drawIndex_shift, ← hsub]
        · have hq : ¬ (i ≤ m ∧ m < i + (k + 1) ∧ m < ws.length) := by omega
          rw [if_neg hp, if_neg hq]

/-- The array-level loop `mutateWeights`, weight by weight. -/
theorem mutateWeights_spec (RAND_MAX : Nat) (rnd : Nat → Nat) (n : Nat) (ws : List ℚ)
    (p : Nat) :
    (mutateWeights RAND_MAX rnd n ws p).2 = drawIndex RAND_MAX rnd p n ∧
    (mutateWeights RAND_MAX rnd n ws p).1.length = ws.length ∧
    ∀ m, (mutateWeights RAND_MAX rnd n ws p).1.getD m 0 =
      if m < n ∧ m < ws.length then
        (if selected RAND_MAX rnd (drawIndex RAND_MAX rnd p m) then
          ws.getD m 0 + amount RAND_MAX rnd (drawIndex RAND_MAX rnd p m + 1)
        else ws.getD m 0)
      else ws.getD m 0 := by
  obtain ⟨h1, h2, h3⟩ := mutateWeights_loop RAND_MAX rnd n 0 ws p
  refine ⟨h1, h2, fun m => ?_⟩
  unfold mutateWeights
  rw [h3 m]
  by_cases hm : m < n ∧ m < ws.length
  · have hq : 0 ≤ m ∧ m < 0 + n ∧ m < ws.length := by omega
    rw [if_pos hm, if_pos hq, Nat.sub_zero]
  · have hq : ¬ (0 ≤ m ∧ m < 0 + n ∧ m < ws.length) := by omega
    rw [if_neg hm, if_neg hq]

/-- Claim C6. A call `mutateNetwork(net, n)` with draws in `[0, RAND_MAX]` changes only
the buffer `net->weights`; weight `i < n` is decided by a draw of its own (number
`drawIndex .. i`): when that draw `r` has `r / RAND_MAX < MUTATION_RATE` the weight grows
by `r' / RAND_MAX * 0.2 - 0.1`, `r'` being the next draw, and otherwise it is kept; the
weights from `n` on are kept; no weight moves by more than 0.1 either way. -/
theorem mutateNetwork_spec (RAND_MAX : Nat) (rnd : Nat → Nat) (net : SparseNetwork) (n : Nat)
    (heap : List (List ℚ)) (draws : Nat) (hRM : 0 < RAND_MAX) (hrnd : ∀ k, rnd k ≤ RAND_MAX)
    (hbuf : net.weights < heap.length) :
    (mutateNetwork RAND_MAX rnd net n heap draws).2 = drawIndex RAND_MAX rnd draws n ∧
    (mutateNetwork RAND_MAX rnd net n heap draws).1.length = heap.length ∧
    (∀ b, b ≠ net.weights →
      (mutateNetwork RAND_MAX rnd net n heap draws).1.getD b [] = heap.getD b []) ∧
    ((mutateNetwork RAND_MAX rnd net n heap draws).1.getD net.weights []).length =
      (heap.getD net.weights []).length ∧
    ∀ i, i < (heap.getD net.weights []).length →
      (i < n →
        ((mutateNetwork RAND_MAX rnd net n heap draws).1.getD net.weights []).getD i 0 =
          if ((rnd (drawIndex RAND_MAX rnd draws i) : ℚ)) / (RAND_MAX : ℚ) < MUTATION_RATE then
            (heap.getD net.weights []).getD i 0 +
              (((rnd (drawIndex RAND_MAX rnd draws i + 1) : ℚ)) / (RAND_MAX : ℚ) * (1 / 5) -
                1 / 10)
          else (heap.getD net.weights []).getD i 0) ∧
      (n ≤ i →
        ((mutateNetwork RAND_MAX rnd net n heap draws).1.getD net.weights []).getD i 0 =
          (heap.getD net.weights []).getD i 0) ∧
      -(1 / 10) ≤
        ((mutateNetwork RAND_MAX rnd net n heap draws).1.getD net.weights []).getD i 0 -
          (heap.getD net.weights []).getD i 0 ∧
      ((mutateNetwork RAND_MAX rnd net n heap draws).1.getD net.weights []).getD i 0 -
          (heap.getD net.weights []).getD i 0 ≤ 1 / 10 := by
  obtain ⟨h1, h2, h3⟩ := mutateWeights_spec RAND_MAX rnd n (heap.getD net.weights []) draws
  have hnew : (mutateNetwork RAND_MAX rnd net n heap draws).1.getD net.weights [] =
      (mutateWeights RAND_MAX rnd n (heap.getD net.weights []) draws).1 := by
    unfold mutateNetwork
    simp only []
    rw [List.getD_eq_getElem?_getD, List.getElem?_set, if_pos rfl, if_pos hbuf]
    rfl
  refine ⟨h1, ?_, ?_, ?_, ?_⟩
  · unfold mutateNetwork
    simp only []
    rw [List.length_set]
  · intro b hb
    unfold mutateNetwork
    simp only []
    rw [List.getD_eq_getElem?_getD, List.getElem?_set, if_neg (Ne.symm hb),
      ← List.getD_eq_getElem?_getD]
  · rw [hnew, h2]
  · intro i hi
    rw [hnew, h3 i]
    have hb := amount_bounds RAND_MAX rnd (drawIndex RAND_MAX rnd draws i + 1) hRM hrnd
    by_cases hin : i < n
    · have hc : i < n ∧ i < (heap.getD net.weights []).length := ⟨hin, hi⟩
      rw [if_pos hc]
      by_cases hs : ((rnd (drawIndex RAND_MAX rnd draws i) : ℚ)) / (RAND_MAX : ℚ) < MUTATION_RATE
      · have hs2 : selected RAND_MAX rnd (drawIndex RAND_MAX rnd draws i) = true :=
          decide_eq_true hs
        rw [if_pos hs2]
        refine ⟨fun _ => ?_, fun hni => absurd hin (Nat.not_lt.mpr hni), ?_, ?_⟩
        · rw [if_pos hs]
          rfl
        · linarith [hb.1]
        · linarith [hb.2]
      · have hs2 : ¬ selected RAND_MAX rnd (drawIndex RAND_MAX rnd draws i) = true := by
          intro h
          exact hs (of_decide_eq_true h)
        rw [if_neg hs2]
        refine ⟨fun _ => ?_, fun _ => rfl, ?_, ?_⟩
        · rw [if_neg hs]
        · norm_num
        · norm_num
    · have hc : ¬ (i < n ∧ i < (heap.getD net.weights []).length) := fun h => hin h.1
      rw [if_neg hc]
      refine ⟨fun h => absurd h hin, fun _ => rfl, ?_, ?_⟩
      · norm_num
      · norm_num

end SEDL

namespace SEDL

/-- Witness of C6: one buffer of two weights; the first is selected and grows by 0.1,
the second is not selected. -/
theorem mutateNetwork_spec_witness :
    0 < 32767 ∧ (∀ k, sampleRand k ≤ 32767) ∧
    (SparseNetwork.mk 0 0 0).weights < ([[1, 2]] : List (List ℚ)).length ∧
    (mutateNetwork 32767 sampleRand ⟨0, 0, 0⟩ 2 [[1, 2]] 0).1 = [[11 / 10, 2]] ∧
    (mutateNetwork 32767 sampleRand ⟨0, 0, 0⟩ 2 [[1, 2]] 0).2 =
      drawIndex 32767 sampleRand 0 2 :=
  ⟨by decide, fun k => by unfold sampleRand; split <;> omega, by decide,
   by norm_num [mutateNetwork, mutateWeights, loopFrom, selected, amount, sampleRand,
      MUTATION_RATE],
   (mutateNetwork_spec 32767 sampleRand ⟨0, 0, 0⟩ 2 [[1, 2]] 0 (by decide)
      (fun k => by unfold sampleRand; split <;> omega) (by decide)).1⟩

/-! ## Elitism in `evolutionaryTraining` -/

end SEDL

/-- A property that every iteration carries one step further holds after the loop. -/
theorem loopFrom_inv {σ : Type} (body : Nat → σ → σ) (P : Nat → σ → Prop) (N : Nat)
    (hstep : ∀ i s, i < N → P i s → P (i + 1) (body i s)) (k i : Nat) (s : σ)
    (hk : i + k ≤ N) (h : P i s) : P (i + k) (loopFrom body k i s) := by
  induction k generalizing i s with
  | zero => exact h
  | succ k ih =>
    rw [loopFrom]
    have := ih (i + 1) (body i s) (by omega) (hstep i s (by omega) h)
    have e : i + 1 + k = i + (k + 1) := by omega
    rw [e] at this
    exact this

namespace SEDL

/-- The selection step changes neither the heap nor the population, and `bestNetwork` is
a copy of one of the ten networks. -/
theorem selectBest_spec (m : Mem) :
    (selectBest m).heap = m.heap ∧ (selectBest m).population = m.population ∧
    (selectBest m).draws = m.draws ∧
    ∃ j, j < POPULATION_SIZE ∧ (selectBest m).bestNetwork = m.population.getD j default := by
  have h := loopFrom_inv
    (fun i (m : Mem) =>
      if (m.population.getD i default).fitness > m.bestNetwork.fitness then
        { m with bestNetwork := m.population.getD i default }
      else m)
    (fun _ (m1 : Mem) => m1.heap = m.heap ∧ m1.population = m.population ∧
      m1.draws = m.draws ∧
      ∃ j, j < POPULATION_SIZE ∧ m1.bestNetwork = m.population.getD j default)
    POPULATION_SIZE ?_ (POPULATION_SIZE - 1) 1
    { m with bestNetwork := m.population.getD 0 default } (by decide)
    ⟨rfl, rfl, rfl, 0, by decide, rfl⟩
  · exact h
  · intro i s hi hP
    obtain ⟨h1, h2, h3, j, hj, h4⟩ := hP
    beta_reduce
    by_cases hc : (s.population.getD i default).fitness > s.bestNetwork.fitness
    · rw [if_pos hc]
      exact ⟨h1, h2, h3, i, hi, by rw [h2]⟩
    · rw [if_neg hc]
      exact ⟨h1, h2, h3, j, hj, h4⟩

/-- With `rand()` always 0, every weight of a mutated buffer is selected and loses 0.1;
here for the first weight. -/
theorem mutateWeights_zero_head (RAND_MAX n : Nat) (ws : List ℚ) (p : Nat) (hn : 0 < n)
    (hl : 0 < ws.length) :
    (mutateWeights RAND_MAX zeroRand n ws p).1.getD 0 0 = ws.getD 0 0 - 1 / 10 := by
  rw [(mutateWeights_spec RAND_MAX zeroRand n ws p).2.2 0, if_pos ⟨hn, hl⟩]
  have hs : selected RAND_MAX zeroRand (drawIndex RAND_MAX zeroRand p 0) = true := by
    unfold selected zeroRand MUTATION_RATE
    norm_num
  rw [if_pos hs]
  unfold amount zeroRand
  norm_num
  ring

/-- One iteration of the loop of `generateNewPopulation`, on the heap: buffer `i` becomes
a mutated copy of buffer `b`, the other buffers are kept. -/
theorem generate_step (RAND_MAX n : Nat) (hn : 0 < n) (heap : List (List ℚ)) (i b d : Nat)
    (net : SparseNetwork) (hnet : net.weights = i) (hi : i < heap.length)
    (hlen : ∀ j, j < heap.length → (heap.getD j []).length = n) (hb : b < heap.length) :
    (mutateNetwork RAND_MAX zeroRand net n (memcpy heap net.weights b n) d).1.length =
      heap.length ∧
    (∀ j, j < heap.length →
      ((mutateNetwork RAND_MAX zeroRand net n (memcpy heap net.weights b n) d).1.getD j
        []).length = n) ∧
    (∀ j, j ≠ i →
      (mutateNetwork RAND_MAX zeroRand net n (memcpy heap net.weights b n) d).1.getD j [] =
        heap.getD j []) ∧
    ((mutateNetwork RAND_MAX zeroRand net n (memcpy heap net.weights b n) d).1.getD i
        []).getD 0 0 = (heap.getD b []).getD 0 0 - 1 / 10 := by
  subst hnet
  have hsrc : (heap.getD b []).length = n := hlen b hb
  have hdst : (heap.getD net.weights []).length = n := hlen _ hi
  have hcopy : (heap.getD b []).take n ++ (heap.getD net.weights []).drop n = heap.getD b [] := by
    rw [← hsrc, List.take_length, hsrc, ← hdst, List.drop_length, List.append_nil]
  have hmc : memcpy heap net.weights b n = heap.set net.weights (heap.getD b []) := by
    unfold memcpy
    rw [hcopy]
  have hread : (heap.set net.weights (heap.getD b [])).getD net.weights [] = heap.getD b [] := by
    rw [List.getD_eq_getElem?_getD, List.getElem?_set, if_pos rfl, if_pos hi]
    rfl
  have hout : (mutateNetwork RAND_MAX zeroRand net n (memcpy heap net.weights b n) d).1 =
      heap.set net.weights (mutateWeights RAND_MAX zeroRand n (heap.getD b []) d).1 := by
    unfold mutateNetwork
    simp only []
    rw [hmc, hread, List.set_set]
  have hnew : ∀ (l : List (List ℚ)) (x : List ℚ), net.weights < l.length →
      (l.set net.weights x).getD net.weights [] = x := by
    intro l x hl
    rw [List.getD_eq_getElem?_getD, List.getElem?_set, if_pos rfl, if_pos hl]
    rfl
  have hold : ∀ (l : List (List ℚ)) (x : List ℚ) (j : Nat), j ≠ net.weights →
      (l.set net.weights x).getD j [] = l.getD j [] := by
    intro l x j hj
    rw [List.getD_eq_getElem?_getD, List.getElem?_set, if_neg (Ne.symm hj),
      ← List.getD_eq_getElem?_getD]
  rw [hout]
  refine ⟨List.length_set _ _ _, ?_, ?_, ?_⟩
  · intro j hj
    by_cases hji : j = net.weights
    · rw [hji, hnew _ _ hi, (mutateWeights_spec _ _ _ _ _).2.1, hsrc]
    · rw [hold _ _ _ hji]
      exact hlen j hj
  · intro j hj
    exact hold _ _ _ hj
  · rw [hnew _ _ hi]
    exact mutateWeights_zero_head RAND_MAX n _ d hn (by omega)

end SEDL

namespace SEDL

/-- The loop of `generateNewPopulation` when `rand()` always returns 0, started from a
memory `m0` whose `bestNetwork` points to buffer `b`: every buffer is overwritten, and
the first weight of each ends 0.1 or 0.2 below the first weight the best buffer had. -/
theorem generate_zero (RAND_MAX n : Nat) (hn : 0 < n) (m0 : Mem) (b : Nat)
    (hb : m0.bestNetwork.weights = b) (hbl : b < POPULATION_SIZE)
    (hheap : m0.heap.length = POPULATION_SIZE)
    (hptr : ∀ i, i < POPULATION_SIZE → (m0.population.getD i default).weights = i)
    (hbuf : ∀ j, j < POPULATION_SIZE → (m0.heap.getD j []).length = n) :
    (generateNewPopulation RAND_MAX zeroRand n m0).heap.length = POPULATION_SIZE ∧
    ∀ t, t < POPULATION_SIZE →
      ((generateNewPopulation RAND_MAX zeroRand n m0).heap.getD t []).getD 0 0 =
          (m0.heap.getD b []).getD 0 0 - 1 / 10 ∨
      ((generateNewPopulation RAND_MAX zeroRand n m0).heap.getD t []).getD 0 0 =
          (m0.heap.getD b []).getD 0 0 - 1 / 5 := by
  have h := loopFrom_inv
    (fun i (m : Mem) =>
      if Addr.population i ≠ Addr.bestNetwork then
        let h := memcpy m.heap (m.population.getD i default).weights m.bestNetwork.weights n
        let r := mutateNetwork RAND_MAX zeroRand (m.population.getD i default) n h m.draws
        { m with heap := r.1, draws := r.2 }
      else m)
    (fun i (m1 : Mem) => m1.population = m0.population ∧ m1.bestNetwork = m0.bestNetwork ∧
      m1.heap.length = POPULATION_SIZE ∧
      (∀ t, t < POPULATION_SIZE → (m1.heap.getD t []).length = n) ∧
      (∀ t, t < i → (m1.heap.getD t []).getD 0 0 = (m0.heap.getD b []).getD 0 0 - 1 / 10 ∨
        (m1.heap.getD t []).getD 0 0 = (m0.heap.getD b []).getD 0 0 - 1 / 5) ∧
      (i ≤ b → (m1.heap.getD b []).getD 0 0 = (m0.heap.getD b []).getD 0 0) ∧
      (b < i → (m1.heap.getD b []).getD 0 0 = (m0.heap.getD b []).getD 0 0 - 1 / 10))
    POPULATION_SIZE ?_ POPULATION_SIZE 0 m0 (by decide)
    ⟨rfl, rfl, hheap, hbuf, fun t ht => absurd ht (Nat.not_lt_zero t), fun _ => rfl,
      fun hlt => absurd hlt (Nat.not_lt_zero b)⟩
  · obtain ⟨_, _, h3, _, h5, _, _⟩ := h
    exact ⟨h3, fun t ht => h5 t (by omega)⟩
  · intro i s hi hP
    obtain ⟨h1, h2, h3, h4, h5, h6, h7⟩ := hP
    beta_reduce
    rw [if_pos (fun hne => Addr.noConfusion hne)]
    simp only []
    have hnet : (s.population.getD i default).weights = i := by
      rw [h1]
      exact hptr i hi
    have hbw : s.bestNetwork.weights = b := by rw [h2, hb]
    rw [hbw]
    obtain ⟨g1, g2, g3, g4⟩ := generate_step RAND_MAX n hn s.heap i b s.draws
      (s.population.getD i default) hnet (by omega)
      (fun j hj => h4 j (by omega)) (by omega)
    refine ⟨h1, h2, by rw [g1, h3], fun t ht => g2 t (by omega), ?_, ?_, ?_⟩
    · intro t ht
      by_cases hti : t = i
      · subst hti
        rw [g4]
        rcases Nat.lt_or_ge b t with hbt | hbt
        · right
          rw [h7 hbt]
          ring
        · left
          rw [h6 hbt]
      · rw [g3 t hti]
        exact h5 t (by omega)
    · intro hle
      have hne : b ≠ i := by omega
      rw [g3 b hne]
      exact h6 (by omega)
    · intro hlt
      by_cases hbi : b = i
      · subst hbi
        rw [g4, h6 (le_refl _)]
      · rw [g3 b hbi]
        exact h7 (by omega)

/-- Claim C4 fails on the code. When `rand()` returns 0 at every call, one generation
(selection, then the new population) overwrites every weight buffer, the one of the
selected best network included: the first weight of every member of the new population is
0.1 or 0.2 below the first weight of the selected best, so the weight vector the best
network had when it was selected is the weight vector of no member of the next
population. -/
theorem elitism_fails (RAND_MAX n : Nat) (hn : 0 < n) (m : Mem)
    (hheap : m.heap.length = POPULATION_SIZE)
    (hptr : ∀ i, i < POPULATION_SIZE → (m.population.getD i default).weights = i)
    (hbuf : ∀ j, j < POPULATION_SIZE → (m.heap.getD j []).length = n) :
    (generation RAND_MAX zeroRand n m).heap.length = POPULATION_SIZE ∧
    (∀ t, t < POPULATION_SIZE →
      ((generation RAND_MAX zeroRand n m).heap.getD t []).getD 0 0 =
        ((selectBest m).heap.getD (selectBest m).bestNetwork.weights []).getD 0 0 - 1 / 10 ∨
      ((generation RAND_MAX zeroRand n m).heap.getD t []).getD 0 0 =
        ((selectBest m).heap.getD (selectBest m).bestNetwork.weights []).getD 0 0 - 1 / 5) ∧
    (selectBest m).heap.getD (selectBest m).bestNetwork.weights [] ∉
      (generation RAND_MAX zeroRand n m).heap := by
  obtain ⟨hh, hp, _, j, hj, hbn⟩ := selectBest_spec m
  have hb : (selectBest m).bestNetwork.weights = j := by rw [hbn, hptr j hj]
  unfold generation
  revert hh hp hb
  generalize selectBest m = m0
  intro hh hp hb
  obtain ⟨g1, g2⟩ := generate_zero RAND_MAX n hn m0 j hb hj (by rw [hh, hheap])
    (fun i hi => by rw [hp]; exact hptr i hi) (fun t ht => by rw [hh]; exact hbuf t ht)
  rw [hb]
  refine ⟨g1, g2, ?_⟩
  intro hmem
  obtain ⟨t, ht⟩ := List.mem_iff_getElem?.mp hmem
  have htl : t < POPULATION_SIZE := by
    rw [← g1]
    rcases Nat.lt_or_ge t (generateNewPopulation RAND_MAX zeroRand n m0).heap.length with h1 | h1
    · exact h1
    · rw [List.getElem?_eq_none h1] at ht
      cases ht
  have hget : (generateNewPopulation RAND_MAX zeroRand n m0).heap.getD t [] =
      m0.heap.getD j [] := by
    rw [List.getD_eq_getElem?_getD, ht]
    rfl
  rcases g2 t htl with h1 | h1
  · rw [hget] at h1
    linarith
  · rw [hget] at h1
    linarith

/-- Witness of the failure of C4: the memory `zeroMem`, with 784000 weights per network. -/
theorem elitism_fails_witness :
    0 < TOTAL_CONNECTIONS ∧ zeroMem.heap.length = POPULATION_SIZE ∧
    (selectBest zeroMem).heap.getD (selectBest zeroMem).bestNetwork.weights [] ∉
      (generation 2147483647 zeroRand TOTAL_CONNECTIONS zeroMem).heap :=
  ⟨by decide, by simp [zeroMem],
   (elitism_fails 2147483647 TOTAL_CONNECTIONS (by decide) zeroMem (by simp [zeroMem])
      (fun i hi => by
        unfold POPULATION_SIZE at hi
        interval_cases i <;> rfl)
      (fun j hj => by
        unfold zeroMem
        simp only []
        rw [List.getD_eq_getElem?_getD, List.getElem?_replicate, if_pos hj]
        simp)).2.2⟩

end SEDL
